import Mathlib

/-!
Codestream connection hub

A shallow embedding of the collaborative-editing backend:

* `backend/models/models.go`      : `User`, `Session`, `WSMessage`
* `backend/services/redis.go`     : `RedisService` and its session operations
* `backend/handlers/websocket.go` : `Client`, `WebSocketHandler`, the three cases of
  `run`, `broadcastToSession`, the loop body of `readPump`, one round of `writePump`

Go channels are modelled as FIFO lists with a closed flag; a send on a closed channel and
a close of a closed channel are run-time panics, a blocking send on a full channel does
not complete.  Pointers to `Client` are modelled by the record they point to (its fields
are never written after `HandleWebSocket` builds it); the content of the `send` channel of
each client lives in the handler state.
-/

namespace Codestream

/-! ## models/models.go -/

/-- Participant record (`models.User`). -/
structure User where
  ID : String
  Name : String
  Email : String
  Color : String
  ImageURL : String
  deriving DecidableEq

/-- Stored session (`models.Session`); `CreatedAt` is an instant, never inspected. -/
structure Session where
  ID : String
  Code : String
  Language : String
  CreatedAt : Nat
  Users : List User
  deriving DecidableEq

mutual
/-- Value held by an `interface{}` after `json.Unmarshal`; `null` is the nil interface and
a number is carried by the bit pattern of its float64, which no code path looks at. -/
inductive JSON where
  | null
  | bool (b : Bool)
  | number (bits : Nat)
  | string (s : String)
  | array (items : JSONList)
  | object (fields : JSONFields)
  deriving DecidableEq
/-- Elements of a decoded JSON array (`[]interface{}`). -/
inductive JSONList where
  | nil
  | cons (head : JSON) (tail : JSONList)
  deriving DecidableEq
/-- Entries of a decoded JSON object (`map[string]interface{}`). -/
inductive JSONFields where
  | nil
  | cons (key : String) (value : JSON) (tail : JSONFields)
  deriving DecidableEq
end

/-- Map index expression `m[key]` on a decoded object; `none` when the key is absent. -/
def JSONFields.get : JSONFields → String → Option JSON
  | .nil, _ => none
  | .cons k v tl, key => if k = key then some v else tl.get key

/-- Wire message (`models.WSMessage`); the field `Type` of the source is `Type_` here. -/
structure WSMessage where
  Type_ : String
  SessionID : String
  UserID : String
  User : Option User
  Data : JSON
  deriving DecidableEq

/-- Result of `json.Marshal` on a `WSMessage`: the frame is represented by the message it
encodes.  Every message built or decoded by the handler is encodable, so the error branch
of the source is never taken. -/
abbrev Bytes := WSMessage

/-- Encoding of an outbound message (`json.Marshal`). -/
def marshal (m : WSMessage) : Bytes := m

/-- The two type assertions `wsMsg.Data.(map[string]interface{})` and `m[key].(string)`
of `readPump`: the string stored under `key`, when `Data` is an object holding one. -/
def stringField (data : JSON) (key : String) : Option String :=
  match data with
  | .object fields =>
    match fields.get key with
    | some (.string s) => some s
    | _ => none
  | _ => none

/-! ## services/redis.go -/

/-- Store behind `RedisService`: the session saved under each session id (the key is
`session:` followed by the id).  Transport failures of the store are not modelled: a
lookup fails exactly when no session is saved under the id. -/
structure RedisService where
  data : String → Option Session

namespace RedisService

/-- Lookup `GetSession`; `none` is the error return. -/
def GetSession (r : RedisService) (sessionID : String) : Option Session :=
  r.data sessionID

/-- Overwrite `UpdateSession`: saves the session under its own `ID` field. -/
def UpdateSession (r : RedisService) (session : Session) : RedisService :=
  { data := Function.update r.data session.ID (some session) }

/-- Creation `CreateSession`: same write as `UpdateSession`. -/
def CreateSession (r : RedisService) (session : Session) : RedisService :=
  { data := Function.update r.data session.ID (some session) }

/-- Operation `AddUserToSession`; `none` is the error return (store untouched). -/
def AddUserToSession (r : RedisService) (sessionID : String) (user : User) :
    Option RedisService :=
  match r.GetSession sessionID with
  | none => none
  | some session =>
    if session.Users.any (fun u => u.ID == user.ID) then some r
    else some (r.UpdateSession { session with Users := session.Users ++ [user] })

/-- Operation `RemoveUserFromSession`; `none` is the error return (store untouched). -/
def RemoveUserFromSession (r : RedisService) (sessionID userID : String) :
    Option RedisService :=
  match r.GetSession sessionID with
  | none => none
  | some session =>
    some (r.UpdateSession { session with Users := session.Users.filter (fun u => u.ID != userID) })

/-- Operation `UpdateCode` (redis.go 137-145): two commands on the shared store with no
lock or transaction between them.  The read `GetSession` is done on `r`; `others` is what
the other goroutines write to the store before the second command; the write
`UpdateSession` then saves the session that was read, with its code replaced, on the
store `others r`.  `none` is the error return of the read, on which this call writes
nothing.  With `others := id` no other write comes in between. -/
def UpdateCode (r : RedisService) (others : RedisService → RedisService)
    (sessionID code : String) : Option RedisService :=
  match r.GetSession sessionID with
  | none => none
  | some session => some ((others r).UpdateSession { session with Code := code })

/-- Operation `UpdateLanguage` (redis.go 156-164): as `UpdateCode`, a read on `r` and a
write of the session that was read, with its language replaced, on the store `others r`
that the other goroutines have written in between. -/
def UpdateLanguage (r : RedisService) (others : RedisService → RedisService)
    (sessionID language : String) : Option RedisService :=
  match r.GetSession sessionID with
  | none => none
  | some session => some ((others r).UpdateSession { session with Language := language })

/-- Participant list saved for a session id; empty when no session is saved under it. -/
def usersOf (r : RedisService) (sessionID : String) : List User :=
  match r.GetSession sessionID with
  | some session => session.Users
  | none => []

/-- Every saved session is saved under its own id, as `CreateSession` and
`UpdateSession` write it. -/
def keyed (r : RedisService) : Prop :=
  ∀ k s, r.GetSession k = some s → s.ID = k

end RedisService

/-! ## handlers/websocket.go : data -/

/-- Connection (`Client`): `conn` identifies the transport socket; the `send` channel of
the source is kept in `WebSocketHandler.send`. -/
structure Client where
  conn : Nat
  sessionID : String
  user : User
  deriving DecidableEq

/-- Command on the `broadcast` channel; `exclude` is `none` for a nil pointer. -/
structure BroadcastMessage where
  sessionID : String
  message : Bytes
  exclude : Option Client
  deriving DecidableEq

/-- Ways a step fails to complete: the two channel panics of the Go runtime, and a
blocking channel operation that cannot proceed in the current state. -/
inductive Fault where
  | sendOnClosed
  | closeOfClosed
  | blocked
  deriving DecidableEq

/-- Capacity of every `send` channel: `make(chan []byte, 256)` in `HandleWebSocket`. -/
def sendCap : Nat := 256

/-- Capacity of the `broadcast` channel: `make(chan *BroadcastMessage, 256)`. -/
def broadcastCap : Nat := 256

/-- Content of one `send` channel: pending messages, oldest first, and the closed flag. -/
structure Chan where
  buf : List Bytes
  closed : Bool
  deriving DecidableEq

namespace Chan

/-- Channel as `make` returns it: open and empty. -/
def fresh : Chan := { buf := [], closed := false }

/-- Predicate `len(ch) == cap(ch)`. -/
def full (ch : Chan) : Bool := decide (sendCap ≤ ch.buf.length)

/-- Non-blocking send `select { case ch <- m: default: }`: panics on a closed channel,
otherwise enqueues when there is room; the flag tells whether the message was taken. -/
def trySend (ch : Chan) (m : Bytes) : Except Fault (Chan × Bool) :=
  if ch.closed then .error .sendOnClosed
  else if ch.full then .ok (ch, false)
  else .ok ({ ch with buf := ch.buf ++ [m] }, true)

/-- Channel after an attempt of non-blocking send on an open channel: the message is at
the tail when there was room, the channel is as before when it was full. -/
def offered (ch : Chan) (m : Bytes) : Chan :=
  if ch.full = true then ch else { ch with buf := ch.buf ++ [m] }

/-- Blocking send `ch <- m`: panics on a closed channel, does not complete while full. -/
def sendBlocking (ch : Chan) (m : Bytes) : Except Fault Chan :=
  if ch.closed then .error .sendOnClosed
  else if ch.full then .error .blocked
  else .ok { ch with buf := ch.buf ++ [m] }

/-- Builtin `close(ch)`: panics when the channel is already closed. -/
def close (ch : Chan) : Except Fault Chan :=
  if ch.closed then .error .closeOfClosed else .ok { ch with closed := true }

end Chan

/-- Inner map `map[*Client]bool` of the registry: its key set, without repetition. -/
structure Bucket where
  elems : List Client
  nodup : elems.Nodup

namespace Bucket

/-- Result of `make(map[*Client]bool)`. -/
def empty : Bucket := ⟨[], List.nodup_nil⟩

/-- Assignment `clients[client] = true`. -/
def insert (b : Bucket) (c : Client) : Bucket :=
  ⟨List.insert c b.elems, b.nodup.insert⟩

/-- Builtin `delete(clients, client)`. -/
def delete (b : Bucket) (c : Client) : Bucket :=
  ⟨b.elems.erase c, b.nodup.erase c⟩

/-- Lookup `_, ok := clients[client]`. -/
def contains (b : Bucket) (c : Client) : Bool := decide (c ∈ b.elems)

end Bucket

/-- Hub (`WebSocketHandler`): the store, the registry `clients`, the pending commands of
the buffered `broadcast` channel, and the content of the `send` channel of every client
(a client that `HandleWebSocket` has not built yet has a fresh channel). -/
structure WebSocketHandler where
  redis : RedisService
  clients : String → Option Bucket
  broadcast : List BroadcastMessage
  send : Client → Chan

/-! ## handlers/websocket.go : the hub -/

/-- Hydration event carrying the stored code (`codeStateMsg` of the register case). -/
def codeStateMsg (sessionID code : String) : WSMessage :=
  { Type_ := "code_change", SessionID := sessionID, UserID := "", User := none,
    Data := .object (.cons "code" (.string code) .nil) }

/-- Hydration event carrying the stored language (`langStateMsg` of the register case). -/
def langStateMsg (sessionID language : String) : WSMessage :=
  { Type_ := "language_change", SessionID := sessionID, UserID := "", User := none,
    Data := .object (.cons "language" (.string language) .nil) }

/-- Arrival announcement built by the register case. -/
def userJoinMsg (client : Client) : WSMessage :=
  { Type_ := "user_join", SessionID := client.sessionID, UserID := "",
    User := some client.user, Data := .null }

/-- Departure announcement built by the unregister case. -/
def userLeaveMsg (client : Client) : WSMessage :=
  { Type_ := "user_leave", SessionID := client.sessionID, UserID := client.user.ID,
    User := none, Data := .null }

/-- Reply built by the ping case of `readPump`. -/
def pongMsg (client : Client) : WSMessage :=
  { Type_ := "pong", SessionID := client.sessionID, UserID := "", User := none,
    Data := .null }

namespace WebSocketHandler

/-- Constructor `NewWebSocketHandler`: empty registry, empty `broadcast` channel. -/
def new (redis : RedisService) : WebSocketHandler :=
  { redis := redis, clients := fun _ => none, broadcast := [], send := fun _ => Chan.fresh }

/-- Members of the bucket of a session; empty when the registry has no bucket for it. -/
def members (h : WebSocketHandler) (sessionID : String) : List Client :=
  match h.clients sessionID with
  | some b => b.elems
  | none => []

/-- Method `broadcastToSession`: encodes the message and performs the blocking send
`h.broadcast <- &BroadcastMessage{...}` on the buffered channel. -/
def broadcastToSession (h : WebSocketHandler) (sessionID : String) (message : WSMessage)
    (exclude : Option Client) : Except Fault WebSocketHandler :=
  if h.broadcast.length < broadcastCap then
    .ok { h with broadcast := h.broadcast ++
            [{ sessionID := sessionID, message := marshal message, exclude := exclude }] }
  else .error .blocked

/-- Hydration send of the register case, `select { case client.send <- data: default: }`:
the message is skipped when the channel is full. -/
def offer (h : WebSocketHandler) (client : Client) (data : Bytes) :
    Except Fault WebSocketHandler :=
  match (h.send client).trySend data with
  | .error e => .error e
  | .ok (ch, _) => .ok { h with send := Function.update h.send client ch }

/-- Bucket of the session of a client once the client is in it: the bucket is made first
when the registry has none for the session (`h.clients[client.sessionID] == nil`). -/
def joined (h : WebSocketHandler) (client : Client) : Bucket :=
  (match h.clients client.sessionID with
    | none => Bucket.empty
    | some b => b).insert client

/-- Registry part of the register case: under the lock, put the client in the bucket of
its session. -/
def insertClient (h : WebSocketHandler) (client : Client) : WebSocketHandler :=
  { h with clients := Function.update h.clients client.sessionID (some (h.joined client)) }

/-- Register case of `run` (`case client := <-h.register`). -/
def runRegister (h : WebSocketHandler) (client : Client) : Except Fault WebSocketHandler :=
  match (h.insertClient client).redis.GetSession client.sessionID with
  | none =>
    (h.insertClient client).broadcastToSession client.sessionID (userJoinMsg client)
      (some client)
  | some session =>
    match (h.insertClient client).offer client
        (marshal (codeStateMsg client.sessionID session.Code)) with
    | .error e => .error e
    | .ok h2 =>
      match h2.offer client (marshal (langStateMsg client.sessionID session.Language)) with
      | .error e => .error e
      | .ok h3 => h3.broadcastToSession client.sessionID (userJoinMsg client) (some client)

/-- Registry part of the unregister case: under the lock, remove the client from its
bucket, close its channel, and delete the bucket when it has become empty. -/
def removeClient (h : WebSocketHandler) (client : Client) : Except Fault WebSocketHandler :=
  match h.clients client.sessionID with
  | none => .ok h
  | some clients =>
    if clients.contains client then
      match (h.send client).close with
      | .error e => .error e
      | .ok ch =>
        let rest := clients.delete client
        .ok { h with
              send := Function.update h.send client ch
              clients := Function.update h.clients client.sessionID
                (if rest.elems.length = 0 then none else some rest) }
    else .ok h

/-- Unregister case of `run` (`case client := <-h.unregister`); the error returned by
`RemoveUserFromSession` is dropped, as in the source. -/
def runUnregister (h : WebSocketHandler) (client : Client) : Except Fault WebSocketHandler :=
  match h.removeClient client with
  | .error e => .error e
  | .ok h1 =>
    let h2 : WebSocketHandler :=
      { h1 with redis :=
          match h1.redis.RemoveUserFromSession client.sessionID client.user.ID with
          | some r => r
          | none => h1.redis }
    h2.broadcastToSession client.sessionID (userLeaveMsg client) none

/-- Loop `for client := range clients` of the broadcast case over the keys still to be
visited, threading the channel contents and the bucket being mutated.  Go leaves the
order of iteration over a map unspecified; the order of the list stands for one such
order, and a bucket may list its keys in any order. -/
def fanOut (msg : BroadcastMessage) :
    List Client → (Client → Chan) → Bucket → Except Fault ((Client → Chan) × Bucket)
  | [], send, bucket => .ok (send, bucket)
  | client :: rest, send, bucket =>
    if some client ≠ msg.exclude then
      match (send client).trySend msg.message with
      | .error e => .error e
      | .ok (ch, true) => fanOut msg rest (Function.update send client ch) bucket
      | .ok (_, false) =>
        match (send client).close with
        | .error e => .error e
        | .ok ch => fanOut msg rest (Function.update send client ch) (bucket.delete client)
    else fanOut msg rest send bucket

/-- Body of the broadcast case of `run` for a received command `msg`. -/
def deliver (h : WebSocketHandler) (msg : BroadcastMessage) : Except Fault WebSocketHandler :=
  match h.clients msg.sessionID with
  | none => .ok h
  | some clients =>
    match fanOut msg clients.elems h.send clients with
    | .error e => .error e
    | .ok (send, bucket) =>
      .ok { h with send := send
                   clients := Function.update h.clients msg.sessionID (some bucket) }

/-- Broadcast case of `run` (`case msg := <-h.broadcast`): receives the oldest pending
command; the case is not ready while the channel is empty. -/
def runBroadcast (h : WebSocketHandler) : Except Fault WebSocketHandler :=
  match h.broadcast with
  | [] => .error .blocked
  | msg :: pending => deliver { h with broadcast := pending } msg

/-- One iteration of the loop of `readPump` on a frame that was read; `decoded` is the
result of `json.Unmarshal` (`none` when it returns an error).  The store update of a
`code_change` or `language_change` frame is taken here with no write of another goroutine
between its read and its write; `readPumpRacing` is the iteration with such writes. -/
def readPump (h : WebSocketHandler) (client : Client) (decoded : Option WSMessage) :
    Except Fault WebSocketHandler :=
  match decoded with
  | none => .ok h
  | some wsMsg =>
    if wsMsg.Type_ = "cursor_move" then
      h.broadcastToSession client.sessionID wsMsg (some client)
    else if wsMsg.Type_ = "code_change" then
      let h1 : WebSocketHandler :=
        match stringField wsMsg.Data "code" with
        | some code =>
          match h.redis.UpdateCode id client.sessionID code with
          | some r => { h with redis := r }
          | none => h
        | none => h
      h1.broadcastToSession client.sessionID wsMsg (some client)
    else if wsMsg.Type_ = "language_change" then
      let h1 : WebSocketHandler :=
        match stringField wsMsg.Data "language" with
        | some language =>
          match h.redis.UpdateLanguage id client.sessionID language with
          | some r => { h with redis := r }
          | none => h
        | none => h
      h1.broadcastToSession client.sessionID wsMsg (some client)
    else if wsMsg.Type_ = "ping" then
      match (h.send client).sendBlocking (marshal (pongMsg client)) with
      | .error e => .error e
      | .ok ch => .ok { h with send := Function.update h.send client ch }
    else .ok h

/-- One iteration of the loop of `readPump` when the store is written by other goroutines
while the frame is handled: `others` is what they write between the read and the write of
the `UpdateCode` or `UpdateLanguage` call of this iteration.  When the read of that call
fails, the call writes nothing and the store is as the others left it.  The cases that
make no such call are those of `readPump`. -/
def readPumpRacing (h : WebSocketHandler) (client : Client) (decoded : Option WSMessage)
    (others : RedisService → RedisService) : Except Fault WebSocketHandler :=
  match decoded with
  | none => .ok h
  | some wsMsg =>
    if wsMsg.Type_ = "cursor_move" then
      h.broadcastToSession client.sessionID wsMsg (some client)
    else if wsMsg.Type_ = "code_change" then
      let h1 : WebSocketHandler :=
        match stringField wsMsg.Data "code" with
        | some code =>
          match h.redis.UpdateCode others client.sessionID code with
          | some r => { h with redis := r }
          | none => { h with redis := others h.redis }
        | none => h
      h1.broadcastToSession client.sessionID wsMsg (some client)
    else if wsMsg.Type_ = "language_change" then
      let h1 : WebSocketHandler :=
        match stringField wsMsg.Data "language" with
        | some language =>
          match h.redis.UpdateLanguage others client.sessionID language with
          | some r => { h with redis := r }
          | none => { h with redis := others h.redis }
        | none => h
      h1.broadcastToSession client.sessionID wsMsg (some client)
    else if wsMsg.Type_ = "ping" then
      match (h.send client).sendBlocking (marshal (pongMsg client)) with
      | .error e => .error e
      | .ok ch => .ok { h with send := Function.update h.send client ch }
    else .ok h

/-- One round of the loop of `writePump` on the `send` channel: a received message is
written together with everything else that is queued; on a closed and drained channel the
writer stops; on an open empty channel the receive does not complete. -/
def writePump (h : WebSocketHandler) (client : Client) : Except Fault WebSocketHandler :=
  match (h.send client).buf with
  | [] => if (h.send client).closed then .ok h else .error .blocked
  | _ :: _ => .ok { h with send := Function.update h.send client { h.send client with buf := [] } }

end WebSocketHandler

/-- What can happen next in the process: one of the three cases of `run` fires, a reader
handles a frame, or a writer flushes its queue.  Each event is taken as one atomic step;
writes to the store by the HTTP handlers are not events of a run. -/
inductive Event where
  | register (client : Client)
  | unregister (client : Client)
  | broadcast
  | frame (client : Client) (decoded : Option WSMessage)
  | flush (client : Client)
  deriving DecidableEq

namespace WebSocketHandler

/-- Effect of one event on the hub state. -/
def step (h : WebSocketHandler) : Event → Except Fault WebSocketHandler
  | .register client => h.runRegister client
  | .unregister client => h.runUnregister client
  | .broadcast => h.runBroadcast
  | .frame client decoded => h.readPump client decoded
  | .flush client => h.writePump client

/-- Effect of a sequence of events, oldest first; stops at the first fault. -/
def exec (h : WebSocketHandler) : List Event → Except Fault WebSocketHandler
  | [] => .ok h
  | e :: es =>
    match h.step e with
    | .error f => .error f
    | .ok h1 => exec h1 es

/-- The store as the reader leaves it after a frame of one of the forwarded types. -/
def storeAfterFrame (h : WebSocketHandler) (c : Client) (m : WSMessage) : RedisService :=
  if m.Type_ = "code_change" then
    match stringField m.Data "code" with
    | some code =>
      match h.redis.UpdateCode id c.sessionID code with
      | some r => r
      | none => h.redis
    | none => h.redis
  else if m.Type_ = "language_change" then
    match stringField m.Data "language" with
    | some language =>
      match h.redis.UpdateLanguage id c.sessionID language with
      | some r => r
      | none => h.redis
    | none => h.redis
  else h.redis

/-- Every connection a command has to be sent to has an open channel. -/
def targetsOpen (h : WebSocketHandler) (msg : BroadcastMessage) : Prop :=
  ∀ c ∈ h.members msg.sessionID, some c ≠ msg.exclude → (h.send c).closed = false

end WebSocketHandler

/-- Order that `HandleWebSocket` and `readPump` impose on the events of a connection,
checked along a sequence of events given the connections that have registered (`reg`) and
those that have unregistered (`gone`) so far: a connection is built and registered once;
its reader handles frames only after that, and sends it on `unregister` once, when its
loop has ended; its writer runs only after it has registered. -/
def lifecycle : List Client → List Client → List Event → Bool
  | _, _, [] => true
  | reg, gone, .register c :: es => !reg.contains c && lifecycle (c :: reg) gone es
  | reg, gone, .unregister c :: es =>
    reg.contains c && !gone.contains c && lifecycle reg (c :: gone) es
  | reg, gone, .frame c _ :: es => reg.contains c && !gone.contains c && lifecycle reg gone es
  | reg, gone, .flush c :: es => reg.contains c && lifecycle reg gone es
  | reg, gone, .broadcast :: es => lifecycle reg gone es

/-- Registry bookkeeping along a run: no member of a bucket has unregistered, every member
sits in the bucket of its own session, and only registered connections unregister. -/
def tracked (h : WebSocketHandler) (reg gone : List Client) : Prop :=
  (∀ S x, x ∈ h.members S → x ∉ gone ∧ x.sessionID = S) ∧ (∀ x ∈ gone, x ∈ reg)

/-- Connections that a sequence of events registers, in order. -/
def registered : List Event → List Client
  | [] => []
  | .register c :: es => c :: registered es
  | _ :: es => registered es

/-- Connections that a sequence of events unregisters, in order. -/
def unregistered : List Event → List Client
  | [] => []
  | .unregister c :: es => c :: unregistered es
  | _ :: es => unregistered es

/-- Message types that the switch of `readPump` has a case for. -/
def dispatchedTypes : List String := ["cursor_move", "code_change", "language_change", "ping"]

/-- Registry and channels along a run: the bookkeeping of `tracked`, every member of a
bucket has registered and has an open channel, and the channel of a connection that has
not registered yet is open. -/
def healthy (h : WebSocketHandler) (reg gone : List Client) : Prop :=
  tracked h reg gone ∧
  (∀ S x, x ∈ h.members S → x ∈ reg ∧ (h.send x).closed = false) ∧
  (∀ x, x ∉ reg → (h.send x).closed = false)

/-- Whether a step ended in one of the two channel panics of the Go runtime. -/
def panicked {α : Type} : Except Fault α → Bool
  | .error .sendOnClosed => true
  | .error .closeOfClosed => true
  | _ => false


/-! ## Sample participants, connections and hub states -/

namespace Sample

/-- Participant of connection `clientA`. -/
def userA : User := { ID := "ua", Name := "Ada", Email := "", Color := "", ImageURL := "" }

/-- Participant of connection `clientB`. -/
def userB : User := { ID := "ub", Name := "Bo", Email := "", Color := "", ImageURL := "" }

/-- Participant of connection `clientC`. -/
def userC : User := { ID := "uc", Name := "Cy", Email := "", Color := "", ImageURL := "" }

/-- Connection of `userA` on session `S1`. -/
def clientA : Client := { conn := 1, sessionID := "S1", user := userA }

/-- Connection of `userB` on session `S1`. -/
def clientB : Client := { conn := 2, sessionID := "S1", user := userB }

/-- Connection of `userC` on session `S1`. -/
def clientC : Client := { conn := 3, sessionID := "S1", user := userC }

/-- A cursor event as a client sends it. -/
def cursorEvent : WSMessage :=
  { Type_ := "cursor_move", SessionID := "S1", UserID := "ub", User := none,
    Data := .object (.cons "line" (.number 3) (.cons "column" (.number 7) .nil)) }

/-- A store that holds no session. -/
def emptyStore : RedisService := { data := fun _ => none }

/-- Hub state with three connections on `S1`: the queue of `clientA` is full, the queue
of `clientB` holds one message, the queue of `clientC` is empty. -/
def crowded : WebSocketHandler :=
  { redis := emptyStore
    clients := fun k =>
      if k = "S1" then some ⟨[clientA, clientB, clientC], by decide⟩ else none
    broadcast := []
    send := fun c =>
      if c = clientA then { buf := List.replicate 256 cursorEvent, closed := false }
      else if c = clientB then { buf := [cursorEvent], closed := false }
      else Chan.fresh }

/-- Run in which `clientA` and `clientB` join `S1`, the hub serves both announcements,
and `clientA` unregisters. -/
def joinLeave : List Event :=
  [.register clientA, .broadcast, .register clientB, .broadcast, .unregister clientA]

/-- Stored snapshot of session `S1`: code `x`, language `y`. -/
def storedS1 : Session :=
  { ID := "S1", Code := "x", Language := "y", CreatedAt := 0, Users := [userA] }

/-- A store that holds `storedS1` under its id. -/
def storeS1 : RedisService := { data := fun k => if k = "S1" then some storedS1 else none }

/-- Hub state with `clientA` alone on `S1`, no queued message, no pending command. -/
def lobby : WebSocketHandler :=
  { redis := storeS1
    clients := fun k => if k = "S1" then some ⟨[clientA], by decide⟩ else none
    broadcast := []
    send := fun _ => Chan.fresh }

/-- An application-level ping as a client sends it. -/
def pingFrame : WSMessage :=
  { Type_ := "ping", SessionID := "S1", UserID := "ua", User := none, Data := .null }

/-- Run on session `S1` with a slow consumer: `clientA` and `clientB` join and the hub
serves both announcements; the writer of `clientA` takes the one queued message and then
stalls while `clientA` sends 256 pings, whose replies fill its queue; `clientB` leaves,
and serving its `user_leave` finds the queue of `clientA` full; finally `clientA` leaves. -/
def slowConsumer : List Event :=
  [.register clientA, .broadcast, .register clientB, .broadcast, .flush clientA] ++
    List.replicate 256 (.frame clientA (some pingFrame)) ++
    [.unregister clientB, .broadcast, .unregister clientA, .broadcast]

/-- The frame `code_change("print(1)")` as `clientA` sends it. -/
def codeFrame : WSMessage :=
  { Type_ := "code_change", SessionID := "S1", UserID := "ua", User := none,
    Data := .object (.cons "code" (.string "print(1)") .nil) }

/-- Hub state with `clientA` and `clientB` on `S1`, no queued message, no pending
command. -/
def pair : WebSocketHandler :=
  { redis := storeS1
    clients := fun k => if k = "S1" then some ⟨[clientA, clientB], by decide⟩ else none
    broadcast := []
    send := fun _ => Chan.fresh }

/-- A `code_change` frame whose data holds a number, not a string, under `code`. -/
def noCodeFrame : WSMessage :=
  { Type_ := "code_change", SessionID := "S1", UserID := "ua", User := none,
    Data := .object (.cons "code" (.number 42) .nil) }

/-- A frame of a type that the reader has no case for. -/
def unknownFrame : WSMessage :=
  { Type_ := "selection", SessionID := "S1", UserID := "ua", User := none, Data := .null }

/-- The run `slowConsumer` up to the broadcast that drops `clientA`: at its end the queue
of `clientA` has been closed by the hub and its reader has not ended yet. -/
def dropRun : List Event :=
  [.register clientA, .broadcast, .register clientB, .broadcast, .flush clientA] ++
    List.replicate 256 (.frame clientA (some pingFrame)) ++
    [.unregister clientB, .broadcast]

/-- The run `dropRun` followed by one more ping of `clientA`, whose reader is still
running. -/
def pingAfterDrop : List Event := dropRun ++ [.frame clientA (some pingFrame)]

/-- The frame `codeFrame` with the id of another session in its `session_id` field. -/
def forgedFrame : WSMessage := { codeFrame with SessionID := "S2" }

/-- Store writes of the reader of `clientB` handling `language_change("python")` on `S1`:
its whole `UpdateLanguage` call. -/
def languageWrite (r : RedisService) : RedisService :=
  match r.UpdateLanguage id "S1" "python" with
  | some r1 => r1
  | none => r

/-- A second session, as the HTTP handler creates it. -/
def storedS2 : Session :=
  { ID := "S2", Code := "", Language := "javascript", CreatedAt := 1, Users := [] }

/-- Store write of the HTTP handler creating `storedS2`. -/
def createS2 (r : RedisService) : RedisService := r.CreateSession storedS2

end Sample


/-! ## Channel lemmas -/

theorem Chan.trySend_closed (ch : Chan) (m : Bytes) (hc : ch.closed = true) :
    ch.trySend m = .error .sendOnClosed := by
  simp [Chan.trySend, hc]

theorem Chan.trySend_full (ch : Chan) (m : Bytes) (hc : ch.closed = false)
    (hf : ch.full = true) : ch.trySend m = .ok (ch, false) := by
  simp [Chan.trySend, hc, hf]

theorem Chan.trySend_room (ch : Chan) (m : Bytes) (hc : ch.closed = false)
    (hf : ch.full = false) : ch.trySend m = .ok ({ ch with buf := ch.buf ++ [m] }, true) := by
  simp [Chan.trySend, hc, hf]

theorem Chan.close_open (ch : Chan) (hc : ch.closed = false) :
    ch.close = .ok { ch with closed := true } := by
  simp [Chan.close, hc]

/-- A hydration send never changes the closed flag. -/
theorem Chan.offered_closed (ch : Chan) (d : Bytes) : (ch.offered d).closed = ch.closed := by
  unfold Chan.offered
  split <;> rfl

namespace WebSocketHandler

/-! ## The fan-out loop -/

/-- What the loop of the broadcast case does to each key it visits, to the keys it does
not visit, and to the bucket, whenever it runs to completion. -/
theorem fanOut_spec (msg : BroadcastMessage) :
    ∀ (l : List Client) (send : Client → Chan) (b : Bucket) (send1 : Client → Chan)
      (b1 : Bucket),
      l.Nodup → fanOut msg l send b = .ok (send1, b1) →
      (∀ c, c ∉ l → send1 c = send c) ∧
      (∀ c ∈ l, some c = msg.exclude → send1 c = send c) ∧
      (∀ c ∈ l, some c ≠ msg.exclude → (send c).closed = false ∧
          ((send c).full = true → send1 c = { send c with closed := true }) ∧
          ((send c).full = false →
            send1 c = { send c with buf := (send c).buf ++ [msg.message] })) ∧
      (∀ c, c ∈ b1.elems ↔
          c ∈ b.elems ∧ ¬ (c ∈ l ∧ some c ≠ msg.exclude ∧ (send c).full = true)) := by
  intro l
  induction l with
  | nil =>
    intro send b send1 b1 _ hrun
    simp only [fanOut, Except.ok.injEq, Prod.mk.injEq] at hrun
    obtain ⟨rfl, rfl⟩ := hrun
    simp
  | cons client rest ih =>
    intro send b send1 b1 hnd hrun
    have hnot : client ∉ rest := (List.nodup_cons.mp hnd).1
    have hrest : rest.Nodup := (List.nodup_cons.mp hnd).2
    have hne : ∀ c ∈ rest, c ≠ client := fun c hc hcc => hnot (hcc ▸ hc)
    by_cases hx : some client = msg.exclude
    · -- the excluded client is skipped
      have hrun1 : fanOut msg rest send b = .ok (send1, b1) := by
        simpa [fanOut, hx] using hrun
      obtain ⟨h1, h2, h3, h4⟩ := ih send b send1 b1 hrest hrun1
      refine ⟨fun c hc => h1 c (fun hm => hc (List.mem_cons_of_mem _ hm)), ?_, ?_, ?_⟩
      · intro c hc hex
        rcases List.mem_cons.mp hc with rfl | hc
        · exact h1 _ hnot
        · exact h2 c hc hex
      · intro c hc hex
        rcases List.mem_cons.mp hc with rfl | hc
        · exact absurd hx hex
        · exact h3 c hc hex
      · intro c
        rw [h4 c]
        constructor
        · rintro ⟨hb, hn⟩
          refine ⟨hb, ?_⟩
          rintro ⟨hm, hex, hf⟩
          rcases List.mem_cons.mp hm with rfl | hm
          · exact hex hx
          · exact hn ⟨hm, hex, hf⟩
        · rintro ⟨hb, hn⟩
          exact ⟨hb, fun ⟨hm, hex, hf⟩ => hn ⟨List.mem_cons_of_mem _ hm, hex, hf⟩⟩
    · cases hc : (send client).closed with
      | true =>
        simp [fanOut, hx, Chan.trySend_closed _ _ hc] at hrun
      | false =>
        cases hf : (send client).full with
        | false =>
          -- room: the message is enqueued
          have hrun1 : fanOut msg rest
              (Function.update send client
                { send client with buf := (send client).buf ++ [msg.message] }) b
              = .ok (send1, b1) := by
            simpa [fanOut, hx, Chan.trySend_room _ _ hc hf] using hrun
          obtain ⟨h1, h2, h3, h4⟩ := ih _ b send1 b1 hrest hrun1
          have hup : ∀ c ∈ rest, Function.update send client
              { send client with buf := (send client).buf ++ [msg.message] } c = send c :=
            fun c hcm => Function.update_noteq (hne c hcm) _ _
          refine ⟨?_, ?_, ?_, ?_⟩
          · intro c hcn
            have hcr : c ∉ rest := fun hm => hcn (List.mem_cons_of_mem _ hm)
            have hcc : c ≠ client := fun e => hcn (e ▸ List.mem_cons_self _ _)
            rw [h1 c hcr, Function.update_noteq hcc]
          · intro c hcm hex
            rcases List.mem_cons.mp hcm with rfl | hcm
            · exact absurd hex hx
            · rw [h2 c hcm hex, hup c hcm]
          · intro c hcm hex
            rcases List.mem_cons.mp hcm with rfl | hcm
            · refine ⟨hc, fun hf1 => ?_, fun _ => ?_⟩
              · rw [hf] at hf1; cases hf1
              · rw [h1 _ hnot, Function.update_same]
            · have := h3 c hcm hex
              rw [hup c hcm] at this
              exact this
          · intro c
            rw [h4 c]
            constructor
            · rintro ⟨hb, hn⟩
              refine ⟨hb, ?_⟩
              rintro ⟨hm, hex, hf1⟩
              rcases List.mem_cons.mp hm with rfl | hm
              · rw [hf] at hf1; cases hf1
              · exact hn ⟨hm, hex, by rw [hup c hm]; exact hf1⟩
            · rintro ⟨hb, hn⟩
              refine ⟨hb, ?_⟩
              rintro ⟨hm, hex, hf1⟩
              exact hn ⟨List.mem_cons_of_mem _ hm, hex, by rw [hup c hm] at hf1; exact hf1⟩
        | true =>
          -- full: the channel is closed and the key deleted
          have hrun1 : fanOut msg rest
              (Function.update send client { send client with closed := true })
              (b.delete client) = .ok (send1, b1) := by
            simpa [fanOut, hx, Chan.trySend_full _ _ hc hf, Chan.close_open _ hc] using hrun
          obtain ⟨h1, h2, h3, h4⟩ := ih _ (b.delete client) send1 b1 hrest hrun1
          have hup : ∀ c ∈ rest, Function.update send client
              { send client with closed := true } c = send c :=
            fun c hcm => Function.update_noteq (hne c hcm) _ _
          refine ⟨?_, ?_, ?_, ?_⟩
          · intro c hcn
            have hcr : c ∉ rest := fun hm => hcn (List.mem_cons_of_mem _ hm)
            have hcc : c ≠ client := fun e => hcn (e ▸ List.mem_cons_self _ _)
            rw [h1 c hcr, Function.update_noteq hcc]
          · intro c hcm hex
            rcases List.mem_cons.mp hcm with rfl | hcm
            · exact absurd hex hx
            · rw [h2 c hcm hex, hup c hcm]
          · intro c hcm hex
            rcases List.mem_cons.mp hcm with rfl | hcm
            · refine ⟨hc, fun _ => ?_, fun hf1 => ?_⟩
              · rw [h1 _ hnot, Function.update_same]
              · rw [hf] at hf1; cases hf1
            · have := h3 c hcm hex
              rw [hup c hcm] at this
              exact this
          · intro c
            rw [h4 c]
            have hdel : c ∈ (b.delete client).elems ↔ c ≠ client ∧ c ∈ b.elems :=
              b.nodup.mem_erase_iff
            rw [hdel]
            constructor
            · rintro ⟨⟨hcc, hb⟩, hn⟩
              refine ⟨hb, ?_⟩
              rintro ⟨hm, hex, hf1⟩
              rcases List.mem_cons.mp hm with rfl | hm
              · exact hcc rfl
              · exact hn ⟨hm, hex, by rw [hup c hm]; exact hf1⟩
            · rintro ⟨hb, hn⟩
              refine ⟨⟨?_, hb⟩, ?_⟩
              · rintro rfl
                exact hn ⟨List.mem_cons_self _ _, hx, hf⟩
              · rintro ⟨hm, hex, hf1⟩
                exact hn ⟨List.mem_cons_of_mem _ hm, hex, by rw [hup c hm] at hf1; exact hf1⟩

/-- The loop runs to completion when every key it has to send to has an open channel. -/
theorem fanOut_ok (msg : BroadcastMessage) :
    ∀ (l : List Client) (send : Client → Chan) (b : Bucket),
      l.Nodup → (∀ c ∈ l, some c ≠ msg.exclude → (send c).closed = false) →
      ∃ r, fanOut msg l send b = .ok r := by
  intro l
  induction l with
  | nil => intro send b _ _; exact ⟨(send, b), rfl⟩
  | cons client rest ih =>
    intro send b hnd hopen
    have hnot : client ∉ rest := (List.nodup_cons.mp hnd).1
    have hrest : rest.Nodup := (List.nodup_cons.mp hnd).2
    have hne : ∀ c ∈ rest, c ≠ client := fun c hc hcc => hnot (hcc ▸ hc)
    by_cases hx : some client = msg.exclude
    · obtain ⟨r, hr⟩ := ih send b hrest
        (fun c hc hex => hopen c (List.mem_cons_of_mem _ hc) hex)
      exact ⟨r, by simpa [fanOut, hx] using hr⟩
    · have hc : (send client).closed = false := hopen client (List.mem_cons_self _ _) hx
      cases hf : (send client).full with
      | false =>
        obtain ⟨r, hr⟩ := ih (Function.update send client
            { send client with buf := (send client).buf ++ [msg.message] }) b hrest
          (fun c hcm hex => by
            rw [Function.update_noteq (hne c hcm)]
            exact hopen c (List.mem_cons_of_mem _ hcm) hex)
        exact ⟨r, by simpa [fanOut, hx, Chan.trySend_room _ _ hc hf] using hr⟩
      | true =>
        obtain ⟨r, hr⟩ := ih (Function.update send client
            { send client with closed := true }) (b.delete client) hrest
          (fun c hcm hex => by
            rw [Function.update_noteq (hne c hcm)]
            exact hopen c (List.mem_cons_of_mem _ hcm) hex)
        exact ⟨r, by simpa [fanOut, hx, Chan.trySend_full _ _ hc hf, Chan.close_open _ hc]
          using hr⟩

/-! ## The broadcast case -/

/-- Shape of a completed broadcast case on a session that has a bucket. -/
theorem deliver_some (h h1 : WebSocketHandler) (msg : BroadcastMessage) (b : Bucket)
    (hb : h.clients msg.sessionID = some b) (hrun : h.deliver msg = .ok h1) :
    ∃ send1 b1, fanOut msg b.elems h.send b = .ok (send1, b1) ∧ h1.send = send1 ∧
      h1.clients = Function.update h.clients msg.sessionID (some b1) ∧
      h1.redis = h.redis ∧ h1.broadcast = h.broadcast := by
  unfold deliver at hrun
  rw [hb] at hrun
  cases hfan : fanOut msg b.elems h.send b with
  | error e => simp [hfan] at hrun
  | ok r =>
    obtain ⟨send1, b1⟩ := r
    simp only [hfan, Except.ok.injEq] at hrun
    subst hrun
    exact ⟨send1, b1, rfl, rfl, rfl, rfl, rfl⟩

/-- A broadcast case on a session without a bucket changes nothing. -/
theorem deliver_none (h : WebSocketHandler) (msg : BroadcastMessage)
    (hb : h.clients msg.sessionID = none) : h.deliver msg = .ok h := by
  simp [deliver, hb]

/-- The broadcast case completes when every connection it sends to has an open channel. -/
theorem deliver_ok (h : WebSocketHandler) (msg : BroadcastMessage)
    (hopen : h.targetsOpen msg) : ∃ h1, h.deliver msg = .ok h1 := by
  cases hb : h.clients msg.sessionID with
  | none => exact ⟨h, deliver_none h msg hb⟩
  | some b =>
    have hopen1 : ∀ c ∈ b.elems, some c ≠ msg.exclude → (h.send c).closed = false := by
      intro c hc hex
      exact hopen c (by simpa [members, hb] using hc) hex
    obtain ⟨⟨send1, b1⟩, hr⟩ := fanOut_ok msg b.elems h.send b b.nodup hopen1
    exact ⟨{ h with send := send1
                    clients := Function.update h.clients msg.sessionID (some b1) },
      by simp [deliver, hb, hr]⟩

/-- Members of the bucket of the session of a command after the broadcast case. -/
theorem members_deliver (h h1 : WebSocketHandler) (msg : BroadcastMessage)
    (hrun : h.deliver msg = .ok h1) (c : Client) :
    c ∈ h1.members msg.sessionID ↔
      c ∈ h.members msg.sessionID ∧ ¬ (some c ≠ msg.exclude ∧ (h.send c).full = true) := by
  cases hb : h.clients msg.sessionID with
  | none =>
    rw [deliver_none h msg hb] at hrun
    cases hrun
    simp [members, hb]
  | some b =>
    obtain ⟨send1, b1, hfan, -, hcl, -, -⟩ := deliver_some h h1 msg b hb hrun
    obtain ⟨-, -, -, h4⟩ := fanOut_spec msg b.elems h.send b send1 b1 b.nodup hfan
    have hm1 : h1.members msg.sessionID = b1.elems := by simp [members, hcl]
    have hm : h.members msg.sessionID = b.elems := by simp [members, hb]
    rw [hm1, hm, h4 c]
    constructor
    · rintro ⟨hc, hn⟩
      exact ⟨hc, fun ⟨hex, hf⟩ => hn ⟨hc, hex, hf⟩⟩
    · rintro ⟨hc, hn⟩
      exact ⟨hc, fun ⟨_, hex, hf⟩ => hn ⟨hex, hf⟩⟩

/-- Channel of a connection after the broadcast case, by what the case did with it. -/
theorem send_deliver (h h1 : WebSocketHandler) (msg : BroadcastMessage)
    (hrun : h.deliver msg = .ok h1) (c : Client) :
    ((c ∉ h.members msg.sessionID ∨ some c = msg.exclude) → h1.send c = h.send c) ∧
    (c ∈ h.members msg.sessionID → some c ≠ msg.exclude →
      (h.send c).closed = false ∧
      ((h.send c).full = true → h1.send c = { h.send c with closed := true }) ∧
      ((h.send c).full = false →
        h1.send c = { h.send c with buf := (h.send c).buf ++ [msg.message] })) := by
  cases hb : h.clients msg.sessionID with
  | none =>
    rw [deliver_none h msg hb] at hrun
    cases hrun
    simp [members, hb]
  | some b =>
    obtain ⟨send1, b1, hfan, hs, -, -, -⟩ := deliver_some h h1 msg b hb hrun
    obtain ⟨h1a, h2, h3, -⟩ := fanOut_spec msg b.elems h.send b send1 b1 b.nodup hfan
    have hm : h.members msg.sessionID = b.elems := by simp [members, hb]
    rw [hm, hs]
    refine ⟨?_, fun hc hex => h3 c hc hex⟩
    rintro (hc | hex)
    · exact h1a c hc
    · by_cases hc : c ∈ b.elems
      · exact h2 c hc hex
      · exact h1a c hc

/-- Buckets of the other sessions are not touched by the broadcast case. -/
theorem clients_deliver_other (h h1 : WebSocketHandler) (msg : BroadcastMessage)
    (hrun : h.deliver msg = .ok h1) (k : String) (hk : k ≠ msg.sessionID) :
    h1.clients k = h.clients k := by
  cases hb : h.clients msg.sessionID with
  | none =>
    rw [deliver_none h msg hb] at hrun
    cases hrun
    rfl
  | some b =>
    obtain ⟨send1, b1, -, -, hcl, -, -⟩ := deliver_some h h1 msg b hb hrun
    rw [hcl, Function.update_noteq hk]

/-! ## The helpers of the register and unregister cases -/

/-- A completed `broadcastToSession` appended exactly one command to the `broadcast`
channel, which had room, and touched nothing else. -/
theorem broadcastToSession_spec (h h1 : WebSocketHandler) (S : String) (m : WSMessage)
    (ex : Option Client) (hrun : h.broadcastToSession S m ex = .ok h1) :
    h.broadcast.length < broadcastCap ∧
    h1 = { h with broadcast := h.broadcast ++ [⟨S, marshal m, ex⟩] } := by
  unfold broadcastToSession at hrun
  by_cases hlen : h.broadcast.length < broadcastCap
  · simp only [hlen, if_true, Except.ok.injEq] at hrun
    exact ⟨hlen, hrun.symm⟩
  · simp [hlen] at hrun

/-- Method `broadcastToSession` completes when the `broadcast` channel has room. -/
theorem broadcastToSession_ok (h : WebSocketHandler) (S : String) (m : WSMessage)
    (ex : Option Client) (hlen : h.broadcast.length < broadcastCap) :
    h.broadcastToSession S m ex =
      .ok { h with broadcast := h.broadcast ++ [⟨S, marshal m, ex⟩] } := by
  simp [broadcastToSession, hlen]

/-- A completed hydration send found the channel open, enqueued the message when there
was room and otherwise left the channel alone, and touched nothing else. -/
theorem offer_spec (h h1 : WebSocketHandler) (c : Client) (d : Bytes)
    (hrun : h.offer c d = .ok h1) :
    (h.send c).closed = false ∧
    h1 = { h with send := Function.update h.send c ((h.send c).offered d) } := by
  unfold offer at hrun
  cases hc : (h.send c).closed with
  | true => simp [Chan.trySend_closed _ _ hc] at hrun
  | false =>
    cases hf : (h.send c).full with
    | true =>
      simp only [Chan.trySend_full _ _ hc hf, Except.ok.injEq] at hrun
      exact ⟨rfl, by simp [← hrun, Chan.offered, hf]⟩
    | false =>
      simp only [Chan.trySend_room _ _ hc hf, Except.ok.injEq] at hrun
      exact ⟨rfl, by simp [← hrun, Chan.offered, hf]⟩

/-- The hydration send completes on an open channel. -/
theorem offer_ok (h : WebSocketHandler) (c : Client) (d : Bytes)
    (hc : (h.send c).closed = false) :
    h.offer c d = .ok { h with send := Function.update h.send c ((h.send c).offered d) } := by
  unfold offer
  cases hf : (h.send c).full with
  | true => simp [Chan.trySend_full _ _ hc hf, Chan.offered, hf]
  | false => simp [Chan.trySend_room _ _ hc hf, Chan.offered, hf]

/-- Registry, store and pending commands after a completed register case. -/
theorem runRegister_spec (h h1 : WebSocketHandler) (c : Client)
    (hrun : h.runRegister c = .ok h1) :
    h1.clients = Function.update h.clients c.sessionID (some (h.joined c)) ∧
    h1.redis = h.redis ∧
    h.broadcast.length < broadcastCap ∧
    h1.broadcast = h.broadcast ++ [⟨c.sessionID, marshal (userJoinMsg c), some c⟩] ∧
    (∀ x, x ≠ c → h1.send x = h.send x) ∧
    (h1.send c).closed = (h.send c).closed := by
  unfold runRegister at hrun
  split at hrun
  · obtain ⟨hlen, rfl⟩ := broadcastToSession_spec _ _ _ _ _ hrun
    exact ⟨rfl, rfl, hlen, rfl, fun _ _ => rfl, rfl⟩
  · split at hrun
    · cases hrun
    · rename_i h2 hoff1
      split at hrun
      · cases hrun
      · rename_i h3 hoff2
        obtain ⟨hlen, rfl⟩ := broadcastToSession_spec _ _ _ _ _ hrun
        obtain ⟨-, rfl⟩ := offer_spec _ _ _ _ hoff2
        obtain ⟨-, rfl⟩ := offer_spec _ _ _ _ hoff1
        refine ⟨rfl, rfl, hlen, rfl, fun x hx => ?_, ?_⟩
        · simp [insertClient, Function.update_noteq hx]
        · simp only [insertClient, Function.update_same, Function.update_idem]
          rw [Chan.offered_closed, Chan.offered_closed]

/-- Members of a bucket named by its registry entry. -/
theorem members_of_some (h : WebSocketHandler) (S : String) (b : Bucket)
    (hb : h.clients S = some b) : h.members S = b.elems := by
  simp [members, hb]

/-- A session without a registry entry has no members. -/
theorem members_of_none (h : WebSocketHandler) (S : String)
    (hb : h.clients S = none) : h.members S = [] := by
  simp [members, hb]

/-- Members of every bucket after a completed register case. -/
theorem members_runRegister (h h1 : WebSocketHandler) (c : Client)
    (hrun : h.runRegister c = .ok h1) (S : String) (x : Client) :
    x ∈ h1.members S ↔ x ∈ h.members S ∨ (x = c ∧ S = c.sessionID) := by
  obtain ⟨hcl, -⟩ := runRegister_spec h h1 c hrun
  by_cases hS : S = c.sessionID
  · subst hS
    have hm : h1.members c.sessionID = (h.joined c).elems := by
      simp [members, hcl]
    rw [hm]
    unfold joined Bucket.insert
    cases hb : h.clients c.sessionID with
    | none => simp [members, hb, Bucket.empty]
    | some b => simp [members, hb]; tauto
  · have hm : h1.members S = h.members S := by
      simp [members, hcl, Function.update_noteq hS]
    rw [hm]
    simp [hS]

/-- Outcome of the registry part of the unregister case: nothing happens for a client
that is not in the bucket of its session; otherwise its open channel is closed, it leaves
the bucket, and the bucket is deleted when nobody is left. -/
theorem removeClient_spec (h h1 : WebSocketHandler) (c : Client)
    (hrun : h.removeClient c = .ok h1) :
    h1.redis = h.redis ∧ h1.broadcast = h.broadcast ∧
    ((c ∉ h.members c.sessionID ∧ h1 = h) ∨
     (c ∈ h.members c.sessionID ∧ (h.send c).closed = false ∧
      h1.send = Function.update h.send c { h.send c with closed := true } ∧
      ∃ b, h.clients c.sessionID = some b ∧
        h1.clients = Function.update h.clients c.sessionID
          (if (b.delete c).elems.length = 0 then none else some (b.delete c)))) := by
  unfold removeClient at hrun
  cases hb : h.clients c.sessionID with
  | none =>
    simp only [hb, Except.ok.injEq] at hrun
    subst hrun
    exact ⟨rfl, rfl, Or.inl ⟨by simp [members, hb], rfl⟩⟩
  | some b =>
    simp only [hb] at hrun
    by_cases hin : c ∈ b.elems
    · simp only [Bucket.contains, hin, decide_True, if_true] at hrun
      cases hc : (h.send c).closed with
      | true => simp [Chan.close, hc] at hrun
      | false =>
        simp only [Chan.close_open _ hc, Except.ok.injEq] at hrun
        subst hrun
        exact ⟨rfl, rfl, Or.inr ⟨by simpa [members, hb] using hin, rfl, rfl, b, rfl, rfl⟩⟩
    · simp only [Bucket.contains, hin, decide_False, Bool.false_eq_true, if_false,
        Except.ok.injEq] at hrun
      subst hrun
      exact ⟨rfl, rfl, Or.inl ⟨by simpa [members, hb] using hin, rfl⟩⟩

/-- The unregister case deletes the bucket of a session when its last member leaves. -/
theorem removeClient_last (h h1 : WebSocketHandler) (c : Client)
    (hrun : h.removeClient c = .ok h1) (hlast : h.members c.sessionID = [c]) :
    h1.clients c.sessionID = none := by
  obtain ⟨-, -, hcase⟩ := removeClient_spec h h1 c hrun
  rcases hcase with ⟨hnot, -⟩ | ⟨-, -, -, b, hb, hcl⟩
  · simp [hlast] at hnot
  · have helems : b.elems = [c] := by rw [← members_of_some h _ b hb, hlast]
    have hdel : (b.delete c).elems = [] := by simp [Bucket.delete, helems]
    rw [hcl, Function.update_same]
    simp [hdel]

/-- The registry part of the unregister case completes when the client, if it is a
member of the bucket of its session, has an open channel. -/
theorem removeClient_ok (h : WebSocketHandler) (c : Client)
    (hopen : c ∈ h.members c.sessionID → (h.send c).closed = false) :
    ∃ h1, h.removeClient c = .ok h1 := by
  unfold removeClient
  cases hb : h.clients c.sessionID with
  | none => exact ⟨h, rfl⟩
  | some b =>
    by_cases hin : c ∈ b.elems
    · have hc := hopen (by simpa [members, hb] using hin)
      simp [Bucket.contains, hin, Chan.close_open _ hc]
    · simp [Bucket.contains, hin]

/-- Members of every bucket after the registry part of the unregister case. -/
theorem members_removeClient (h h1 : WebSocketHandler) (c : Client)
    (hrun : h.removeClient c = .ok h1) (S : String) (x : Client) :
    x ∈ h1.members S ↔ x ∈ h.members S ∧ ¬ (x = c ∧ S = c.sessionID) := by
  obtain ⟨-, -, hcase⟩ := removeClient_spec h h1 c hrun
  rcases hcase with ⟨hnot, rfl⟩ | ⟨hin, -, -, b, hb, hcl⟩
  · constructor
    · intro hx
      exact ⟨hx, fun ⟨e1, e2⟩ => hnot (by subst e1; subst e2; exact hx)⟩
    · exact fun hx => hx.1
  · by_cases hS : S = c.sessionID
    · subst hS
      have hm : h1.members c.sessionID = (b.delete c).elems := by
        unfold members
        rw [hcl, Function.update_same]
        by_cases hlen : (b.delete c).elems.length = 0
        · simp [hlen, List.length_eq_zero.mp hlen]
        · simp [hlen]
      rw [hm, members_of_some h _ b hb]
      have hdel : x ∈ (b.delete c).elems ↔ x ≠ c ∧ x ∈ b.elems := b.nodup.mem_erase_iff
      rw [hdel]
      tauto
    · have hm : h1.members S = h.members S := by
        simp [members, hcl, Function.update_noteq hS]
      rw [hm]
      simp [hS]

/-- Shape of a completed unregister case: the registry part, the store cleanup, and one
`user_leave` command appended to the `broadcast` channel, which had room. -/
theorem runUnregister_spec (h h1 : WebSocketHandler) (c : Client)
    (hrun : h.runUnregister c = .ok h1) :
    ∃ h0, h.removeClient c = .ok h0 ∧ h1.clients = h0.clients ∧ h1.send = h0.send ∧
      h.broadcast.length < broadcastCap ∧
      h1.broadcast = h.broadcast ++ [⟨c.sessionID, marshal (userLeaveMsg c), none⟩] ∧
      h1.redis = (match h.redis.RemoveUserFromSession c.sessionID c.user.ID with
                  | some r => r
                  | none => h.redis) := by
  unfold runUnregister at hrun
  cases hrem : h.removeClient c with
  | error e => simp [hrem] at hrun
  | ok h0 =>
    simp only [hrem] at hrun
    obtain ⟨hlen, rfl⟩ := broadcastToSession_spec _ _ _ _ _ hrun
    obtain ⟨hr, hbc, -⟩ := removeClient_spec h h0 c hrem
    refine ⟨h0, rfl, rfl, rfl, ?_, ?_, ?_⟩
    · simpa [hbc] using hlen
    · simp [hbc]
    · simp [hr]

/-- Members of every bucket after a completed unregister case. -/
theorem members_runUnregister (h h1 : WebSocketHandler) (c : Client)
    (hrun : h.runUnregister c = .ok h1) (S : String) (x : Client) :
    x ∈ h1.members S ↔ x ∈ h.members S ∧ ¬ (x = c ∧ S = c.sessionID) := by
  obtain ⟨h0, hrem, hcl, -⟩ := runUnregister_spec h h1 c hrun
  have hm : h1.members S = h0.members S := by simp [members, hcl]
  rw [hm]
  exact members_removeClient h h0 c hrem S x

/-- The broadcast case of `run` never adds a member to a bucket. -/
theorem members_runBroadcast (h h1 : WebSocketHandler) (hrun : h.runBroadcast = .ok h1)
    (S : String) (x : Client) (hx : x ∈ h1.members S) : x ∈ h.members S := by
  unfold runBroadcast at hrun
  cases hq : h.broadcast with
  | nil => simp [hq] at hrun
  | cons msg pending =>
    simp only [hq] at hrun
    by_cases hS : S = msg.sessionID
    · subst hS
      exact ((members_deliver _ h1 msg hrun x).mp hx).1
    · have := clients_deliver_other _ h1 msg hrun S hS
      have hm : h1.members S = h.members S := by
        simp only [members, this]
      rw [← hm]
      exact hx

/-- The reader never touches the registry. -/
theorem clients_readPump (h h1 : WebSocketHandler) (c : Client) (d : Option WSMessage)
    (hrun : h.readPump c d = .ok h1) : h1.clients = h.clients := by
  unfold readPump at hrun
  cases d with
  | none => cases hrun; rfl
  | some m =>
    simp only at hrun
    split_ifs at hrun
    · obtain ⟨-, rfl⟩ := broadcastToSession_spec _ _ _ _ _ hrun; rfl
    · obtain ⟨-, rfl⟩ := broadcastToSession_spec _ _ _ _ _ hrun
      simp only
      split
      · split <;> rfl
      · rfl
    · obtain ⟨-, rfl⟩ := broadcastToSession_spec _ _ _ _ _ hrun
      simp only
      split
      · split <;> rfl
      · rfl
    · split at hrun
      · cases hrun
      · cases hrun; rfl
    · cases hrun; rfl

/-- The writer never touches the registry. -/
theorem clients_writePump (h h1 : WebSocketHandler) (c : Client)
    (hrun : h.writePump c = .ok h1) : h1.clients = h.clients := by
  unfold writePump at hrun
  split at hrun
  · split_ifs at hrun
    cases hrun; rfl
  · cases hrun; rfl

/-- Channels after a completed register case on a session found in the store: only the
channel of the new client changes, by the two hydration sends. -/
theorem runRegister_send_hydrated (h h1 : WebSocketHandler) (c : Client) (s : Session)
    (hs : h.redis.GetSession c.sessionID = some s) (hrun : h.runRegister c = .ok h1) :
    h1.send = Function.update h.send c
      (((h.send c).offered (marshal (codeStateMsg c.sessionID s.Code))).offered
        (marshal (langStateMsg c.sessionID s.Language))) := by
  have hs1 : (h.insertClient c).redis.GetSession c.sessionID = some s := hs
  unfold runRegister at hrun
  simp only [hs1] at hrun
  split at hrun
  · cases hrun
  · rename_i h2 hoff1
    split at hrun
    · cases hrun
    · rename_i h3 hoff2
      obtain ⟨-, rfl⟩ := broadcastToSession_spec _ _ _ _ _ hrun
      obtain ⟨-, rfl⟩ := offer_spec _ _ _ _ hoff2
      obtain ⟨-, rfl⟩ := offer_spec _ _ _ _ hoff1
      simp [insertClient]

/-- Channels after a completed register case on a session the store does not hold:
no channel changes. -/
theorem runRegister_send_plain (h h1 : WebSocketHandler) (c : Client)
    (hs : h.redis.GetSession c.sessionID = none) (hrun : h.runRegister c = .ok h1) :
    h1.send = h.send := by
  have hs1 : (h.insertClient c).redis.GetSession c.sessionID = none := hs
  unfold runRegister at hrun
  simp only [hs1] at hrun
  obtain ⟨-, rfl⟩ := broadcastToSession_spec _ _ _ _ _ hrun
  rfl

/-- The register case completes when the channel of the new client is open and the
`broadcast` channel has room for the announcement. -/
theorem runRegister_ok (h : WebSocketHandler) (c : Client)
    (hopen : (h.send c).closed = false) (hroom : h.broadcast.length < broadcastCap) :
    ∃ h1, h.runRegister c = .ok h1 := by
  have hopen1 : ((h.insertClient c).send c).closed = false := hopen
  have hroom1 : (h.insertClient c).broadcast.length < broadcastCap := hroom
  unfold runRegister
  split
  · exact ⟨_, broadcastToSession_ok _ _ _ _ hroom1⟩
  · rw [offer_ok _ _ _ hopen1]
    simp only
    rw [offer_ok _ _ _ (by simp [Chan.offered_closed, hopen1])]
    exact ⟨_, broadcastToSession_ok _ _ _ _ hroom1⟩

/-- A member of a session sits in a bucket that the registry holds for the session. -/
theorem bucket_of_member (h : WebSocketHandler) (S : String) (x : Client)
    (hx : x ∈ h.members S) : ∃ b, h.clients S = some b ∧ x ∈ b.elems := by
  cases hb : h.clients S with
  | none => simp [members, hb] at hx
  | some b => exact ⟨b, rfl, by simpa [members, hb] using hx⟩

/-! ## The reader -/

/-- On a frame of type `cursor_move`, `code_change` or `language_change` the reader does
its store write and then sends one command to the hub: the decoded message, for the
session of the connection, excluding the connection. -/
theorem readPump_forward (h : WebSocketHandler) (c : Client) (m : WSMessage)
    (hty : m.Type_ = "cursor_move" ∨ m.Type_ = "code_change" ∨ m.Type_ = "language_change") :
    h.readPump c (some m) =
      ({ h with redis := h.storeAfterFrame c m } : WebSocketHandler).broadcastToSession
        c.sessionID m (some c) := by
  unfold readPump storeAfterFrame
  rcases hty with hty | hty | hty
  · simp [hty]
  · simp only [hty]
    simp only [show ("code_change" : String) ≠ "cursor_move" by decide, if_false, if_true]
    split
    · split <;> rfl
    · rfl
  · simp only [hty]
    simp only [show ("language_change" : String) ≠ "cursor_move" by decide,
      show ("language_change" : String) ≠ "code_change" by decide, if_false, if_true]
    split
    · split <;> rfl
    · rfl

/-- On a frame of type `ping` the reader does one blocking send of the reply on the
channel of its own connection. -/
theorem readPump_ping (h : WebSocketHandler) (c : Client) (m : WSMessage)
    (hty : m.Type_ = "ping") :
    h.readPump c (some m) =
      (match (h.send c).sendBlocking (marshal (pongMsg c)) with
        | .error e => .error e
        | .ok ch => .ok { h with send := Function.update h.send c ch }) := by
  unfold readPump
  simp only [hty]
  simp only [show ("ping" : String) ≠ "cursor_move" by decide,
    show ("ping" : String) ≠ "code_change" by decide,
    show ("ping" : String) ≠ "language_change" by decide, if_false, if_true]

/-! ## Runs -/

/-- A computation on which a check of the result evaluates to true has a result, and the
result passes the check. -/
theorem ok_of_check {α : Type} (x : Except Fault α) (p : α → Bool)
    (hx : (match x with
      | .ok a => p a
      | .error _ => false) = true) : ∃ a, x = .ok a ∧ p a = true := by
  cases x with
  | error e => simp at hx
  | ok a => exact ⟨a, rfl, hx⟩

/-- A computation that evaluates to a success has a result. -/
theorem exists_ok_of_toBool {α : Type} (x : Except Fault α) (hx : x.toBool = true) :
    ∃ a, x = .ok a := by
  cases x with
  | error e => simp [Except.toBool] at hx
  | ok a => exact ⟨a, rfl⟩

/-- Unfolding of a run on a non-empty sequence of events. -/
theorem exec_cons (h h1 : WebSocketHandler) (e : Event) (es : List Event)
    (hrun : h.exec (e :: es) = .ok h1) :
    ∃ h2, h.step e = .ok h2 ∧ h2.exec es = .ok h1 := by
  unfold WebSocketHandler.exec at hrun
  cases hs : h.step e with
  | error f => simp [hs] at hrun
  | ok h2 => exact ⟨h2, rfl, by simpa [hs] using hrun⟩

/-- Along a run that respects the lifecycle of connections, a connection that has
unregistered is in no bucket at the end. -/
theorem exec_tracked :
    ∀ (evs : List Event) (reg gone : List Client) (h h1 : WebSocketHandler),
      lifecycle reg gone evs = true → tracked h reg gone → h.exec evs = .ok h1 →
      ∀ c, (c ∈ gone ∨ Event.unregister c ∈ evs) → ∀ S, c ∉ h1.members S := by
  intro evs
  induction evs with
  | nil =>
    intro reg gone h h1 _ htr hrun c hc S hm
    simp only [WebSocketHandler.exec, Except.ok.injEq] at hrun
    subst hrun
    rcases hc with hc | hc
    · exact (htr.1 S c hm).1 hc
    · simp at hc
  | cons e es ih =>
    intro reg gone h h1 hlife htr hrun c hc S
    obtain ⟨h2, hstep, hrest⟩ := exec_cons h h1 e es hrun
    cases e with
    | register c1 =>
      simp only [lifecycle, Bool.and_eq_true] at hlife
      have hnew : c1 ∉ reg := by simpa using hlife.1
      have htr2 : tracked h2 (c1 :: reg) gone := by
        refine ⟨fun S x hx => ?_, fun x hx => List.mem_cons_of_mem _ (htr.2 x hx)⟩
        rcases (members_runRegister h h2 c1 hstep S x).mp hx with hx | ⟨rfl, rfl⟩
        · exact htr.1 S x hx
        · exact ⟨fun hg => hnew (htr.2 _ hg), rfl⟩
      refine ih (c1 :: reg) gone h2 h1 hlife.2 htr2 hrest c ?_ S
      rcases hc with hc | hc
      · exact Or.inl hc
      · exact Or.inr (by simpa using hc)
    | unregister c1 =>
      simp only [lifecycle, Bool.and_eq_true] at hlife
      have hreg : c1 ∈ reg := by simpa using hlife.1.1
      have htr2 : tracked h2 reg (c1 :: gone) := by
        refine ⟨fun S x hx => ?_, fun x hx => ?_⟩
        · obtain ⟨hx1, hx2⟩ := (members_runUnregister h h2 c1 hstep S x).mp hx
          obtain ⟨hg, hs⟩ := htr.1 S x hx1
          refine ⟨fun hmem => ?_, hs⟩
          rcases List.mem_cons.mp hmem with rfl | hmem
          · exact hx2 ⟨rfl, hs.symm⟩
          · exact hg hmem
        · rcases List.mem_cons.mp hx with rfl | hx
          · exact hreg
          · exact htr.2 x hx
      refine ih reg (c1 :: gone) h2 h1 hlife.2 htr2 hrest c ?_ S
      rcases hc with hc | hc
      · exact Or.inl (List.mem_cons_of_mem _ hc)
      · rcases List.mem_cons.mp hc with hc | hc
        · cases hc
          exact Or.inl (List.mem_cons_self _ _)
        · exact Or.inr hc
    | broadcast =>
      simp only [lifecycle] at hlife
      have htr2 : tracked h2 reg gone :=
        ⟨fun S x hx => htr.1 S x (members_runBroadcast h h2 hstep S x hx), htr.2⟩
      refine ih reg gone h2 h1 hlife htr2 hrest c ?_ S
      rcases hc with hc | hc
      · exact Or.inl hc
      · exact Or.inr (by simpa using hc)
    | frame c1 d =>
      simp only [lifecycle, Bool.and_eq_true] at hlife
      have hcl := clients_readPump h h2 c1 d hstep
      have htr2 : tracked h2 reg gone :=
        ⟨fun S x hx => htr.1 S x (by simpa only [members, hcl] using hx), htr.2⟩
      refine ih reg gone h2 h1 hlife.2 htr2 hrest c ?_ S
      rcases hc with hc | hc
      · exact Or.inl hc
      · exact Or.inr (by simpa using hc)
    | flush c1 =>
      simp only [lifecycle, Bool.and_eq_true] at hlife
      have hcl := clients_writePump h h2 c1 hstep
      have htr2 : tracked h2 reg gone :=
        ⟨fun S x hx => htr.1 S x (by simpa only [members, hcl] using hx), htr.2⟩
      refine ih reg gone h2 h1 hlife.2 htr2 hrest c ?_ S
      rcases hc with hc | hc
      · exact Or.inl hc
      · exact Or.inr (by simpa using hc)

/-! ## Lemmas for the second group of claims -/

/-- A hydration send adds nothing to a queue but the message offered. -/
theorem mem_offered (ch : Chan) (d m : Bytes) (hm : m ∈ (ch.offered d).buf) :
    m ∈ ch.buf ∨ m = d := by
  unfold Chan.offered at hm
  by_cases hf : ch.full = true
  · rw [if_pos hf] at hm
    exact Or.inl hm
  · rw [if_neg hf] at hm
    simpa using hm

/-- Two hydration sends add nothing to a queue but the two messages offered. -/
theorem mem_offered_twice (ch : Chan) (d1 d2 m : Bytes)
    (hm : m ∈ ((ch.offered d1).offered d2).buf) : m ∈ ch.buf ∨ m = d1 ∨ m = d2 := by
  rcases mem_offered _ _ _ hm with hm | hm
  · rcases mem_offered _ _ _ hm with hm | hm
    · exact Or.inl hm
    · exact Or.inr (Or.inl hm)
  · exact Or.inr (Or.inr hm)

/-- The queue of a registering client gains only hydration events in the register case. -/
theorem runRegister_gain (h h1 : WebSocketHandler) (c : Client)
    (hrun : h.runRegister c = .ok h1) (m : Bytes) (hm : m ∈ (h1.send c).buf) :
    m ∈ (h.send c).buf ∨ m.Type_ = "code_change" ∨ m.Type_ = "language_change" := by
  cases hs : h.redis.GetSession c.sessionID with
  | none =>
    rw [runRegister_send_plain h h1 c hs hrun] at hm
    exact Or.inl hm
  | some s =>
    rw [runRegister_send_hydrated h h1 c s hs hrun, Function.update_same] at hm
    rcases mem_offered_twice _ _ _ _ hm with hm | rfl | rfl
    · exact Or.inl hm
    · exact Or.inr (Or.inl rfl)
    · exact Or.inr (Or.inr rfl)

/-- A completed step of the reader on a forwarded frame leaves in the store what
`storeAfterFrame` computes, appends one command, and touches nothing else. -/
theorem readPump_forward_spec (h h1 : WebSocketHandler) (c : Client) (m : WSMessage)
    (hty : m.Type_ = "cursor_move" ∨ m.Type_ = "code_change" ∨ m.Type_ = "language_change")
    (hrun : h.readPump c (some m) = .ok h1) :
    h.broadcast.length < broadcastCap ∧
    h1.redis = h.storeAfterFrame c m ∧ h1.clients = h.clients ∧ h1.send = h.send ∧
    h1.broadcast = h.broadcast ++ [⟨c.sessionID, marshal m, some c⟩] := by
  rw [readPump_forward h c m hty] at hrun
  obtain ⟨hlen, rfl⟩ := broadcastToSession_spec _ _ _ _ _ hrun
  exact ⟨hlen, rfl, rfl, rfl, rfl⟩

/-- The reader completes its step on a forwarded frame when the `broadcast` channel has
room. -/
theorem readPump_forward_ok (h : WebSocketHandler) (c : Client) (m : WSMessage)
    (hty : m.Type_ = "cursor_move" ∨ m.Type_ = "code_change" ∨ m.Type_ = "language_change")
    (hroom : h.broadcast.length < broadcastCap) :
    ∃ h1, h.readPump c (some m) = .ok h1 := by
  rw [readPump_forward h c m hty]
  exact ⟨_, broadcastToSession_ok _ _ _ _ hroom⟩

end WebSocketHandler

namespace RedisService

/-- A write of a session changes the entry under the id of the session and no other. -/
theorem GetSession_UpdateSession (r : RedisService) (s : Session) (k : String) :
    (r.UpdateSession s).GetSession k = if k = s.ID then some s else r.GetSession k := by
  unfold GetSession UpdateSession
  by_cases hk : k = s.ID
  · subst hk
    simp
  · simp [Function.update_noteq hk, hk]

end RedisService

namespace WebSocketHandler

/-- A frame that does not decode is skipped. -/
theorem readPump_undecodable (h : WebSocketHandler) (c : Client) :
    h.readPump c none = .ok h := rfl

/-- A frame of a type without a case in the switch is skipped. -/
theorem readPump_unknown (h : WebSocketHandler) (c : Client) (m : WSMessage)
    (hty : m.Type_ ∉ dispatchedTypes) : h.readPump c (some m) = .ok h := by
  simp only [dispatchedTypes, List.mem_cons, List.mem_singleton, List.not_mem_nil, or_false,
    not_or] at hty
  obtain ⟨h1, h2, h3, h4⟩ := hty
  simp [readPump, h1, h2, h3, h4]

/-- The store is not written by a `code_change` or `language_change` frame that lacks
its string field. -/
theorem storeAfterFrame_lacking (h : WebSocketHandler) (c : Client) (m : WSMessage)
    (hlack : (m.Type_ = "code_change" ∧ stringField m.Data "code" = none) ∨
      (m.Type_ = "language_change" ∧ stringField m.Data "language" = none)) :
    h.storeAfterFrame c m = h.redis := by
  unfold storeAfterFrame
  rcases hlack with ⟨hty, hnone⟩ | ⟨hty, hnone⟩
  · simp [hty, hnone]
  · simp [hty, hnone]

/-! ## Open channels along a run -/

/-- Method `broadcastToSession` blocks when the `broadcast` channel is full. -/
theorem broadcastToSession_blocked (h : WebSocketHandler) (S : String) (m : WSMessage)
    (ex : Option Client) (hfull : ¬ h.broadcast.length < broadcastCap) :
    h.broadcastToSession S m ex = .error .blocked := by
  simp [broadcastToSession, hfull]

/-- The unregister case touches no channel but the one of its client. -/
theorem send_runUnregister (h h1 : WebSocketHandler) (c : Client)
    (hrun : h.runUnregister c = .ok h1) (x : Client) (hx : x ≠ c) :
    h1.send x = h.send x := by
  obtain ⟨h0, hrem, -, hsend, -⟩ := runUnregister_spec h h1 c hrun
  obtain ⟨-, -, hcase⟩ := removeClient_spec h h0 c hrem
  rw [hsend]
  rcases hcase with ⟨-, rfl⟩ | ⟨-, -, hsend0, -⟩
  · rfl
  · rw [hsend0, Function.update_noteq hx]

/-- The unregister case leaves the channel of a client that is in no bucket as it is. -/
theorem send_runUnregister_absent (h h1 : WebSocketHandler) (c : Client)
    (hrun : h.runUnregister c = .ok h1) (habsent : c ∉ h.members c.sessionID) :
    h1.send = h.send := by
  obtain ⟨h0, hrem, -, hsend, -⟩ := runUnregister_spec h h1 c hrun
  obtain ⟨-, -, hcase⟩ := removeClient_spec h h0 c hrem
  rw [hsend]
  rcases hcase with ⟨-, rfl⟩ | ⟨hin, -⟩
  · rfl
  · exact absurd hin habsent

/-- The reader never changes the closed flag of a channel. -/
theorem closed_readPump (h h1 : WebSocketHandler) (c : Client) (d : Option WSMessage)
    (hrun : h.readPump c d = .ok h1) (x : Client) :
    (h1.send x).closed = (h.send x).closed := by
  unfold readPump at hrun
  cases d with
  | none => cases hrun; rfl
  | some m =>
    simp only at hrun
    split_ifs at hrun
    · obtain ⟨-, rfl⟩ := broadcastToSession_spec _ _ _ _ _ hrun; rfl
    · obtain ⟨-, rfl⟩ := broadcastToSession_spec _ _ _ _ _ hrun
      simp only
      split
      · split <;> rfl
      · rfl
    · obtain ⟨-, rfl⟩ := broadcastToSession_spec _ _ _ _ _ hrun
      simp only
      split
      · split <;> rfl
      · rfl
    · cases hc : (h.send c).closed with
      | true => simp [Chan.sendBlocking, hc] at hrun
      | false =>
        cases hf : (h.send c).full with
        | true => simp [Chan.sendBlocking, hc, hf] at hrun
        | false =>
          simp only [Chan.sendBlocking, hc, hf, Bool.false_eq_true, if_false,
            Except.ok.injEq] at hrun
          subst hrun
          by_cases hx : x = c
          · subst hx
            simp [hc]
          · simp [Function.update_noteq hx]
    · cases hrun; rfl

/-- The writer never changes the closed flag of a channel. -/
theorem closed_writePump (h h1 : WebSocketHandler) (c : Client)
    (hrun : h.writePump c = .ok h1) (x : Client) :
    (h1.send x).closed = (h.send x).closed := by
  unfold writePump at hrun
  split at hrun
  · split_ifs at hrun
    cases hrun; rfl
  · cases hrun
    by_cases hx : x = c
    · subst hx
      simp
    · simp [Function.update_noteq hx]

/-- The register case of a connection that has not registered keeps the state healthy. -/
theorem healthy_runRegister (h h1 : WebSocketHandler) (c : Client) (reg gone : List Client)
    (hnew : c ∉ reg) (hh : healthy h reg gone) (hrun : h.runRegister c = .ok h1) :
    healthy h1 (c :: reg) gone := by
  obtain ⟨htr, hmem, hfresh⟩ := hh
  obtain ⟨-, -, -, -, hothers, hclosed⟩ := runRegister_spec h h1 c hrun
  refine ⟨⟨fun S x hx => ?_, fun x hx => List.mem_cons_of_mem _ (htr.2 x hx)⟩,
    fun S x hx => ?_, fun x hx => ?_⟩
  · rcases (members_runRegister h h1 c hrun S x).mp hx with hx | ⟨rfl, rfl⟩
    · exact htr.1 S x hx
    · exact ⟨fun hg => hnew (htr.2 _ hg), rfl⟩
  · rcases (members_runRegister h h1 c hrun S x).mp hx with hx | ⟨rfl, rfl⟩
    · obtain ⟨hxr, hxo⟩ := hmem S x hx
      have hxc : x ≠ c := fun e => hnew (e ▸ hxr)
      exact ⟨List.mem_cons_of_mem _ hxr, by rw [hothers x hxc]; exact hxo⟩
    · exact ⟨List.mem_cons_self _ _, by rw [hclosed]; exact hfresh _ hnew⟩
  · have hxc : x ≠ c := fun e => hx (e ▸ List.mem_cons_self _ _)
    rw [hothers x hxc]
    exact hfresh x (fun hm => hx (List.mem_cons_of_mem _ hm))

/-- The unregister case of a registered connection keeps the state healthy. -/
theorem healthy_runUnregister (h h1 : WebSocketHandler) (c : Client)
    (reg gone : List Client) (hreg : c ∈ reg) (hh : healthy h reg gone)
    (hrun : h.runUnregister c = .ok h1) : healthy h1 reg (c :: gone) := by
  obtain ⟨htr, hmem, hfresh⟩ := hh
  have hkeep : ∀ S x, x ∈ h1.members S → x ∈ h.members S ∧ x ≠ c := by
    intro S x hx
    obtain ⟨hx1, hx2⟩ := (members_runUnregister h h1 c hrun S x).mp hx
    exact ⟨hx1, fun e => hx2 ⟨e, by rw [← (htr.1 S x hx1).2, e]⟩⟩
  refine ⟨⟨fun S x hx => ?_, fun x hx => ?_⟩, fun S x hx => ?_, fun x hx => ?_⟩
  · obtain ⟨hx1, hxc⟩ := hkeep S x hx
    obtain ⟨hg, hs⟩ := htr.1 S x hx1
    refine ⟨fun hm => ?_, hs⟩
    rcases List.mem_cons.mp hm with e | hm
    · exact hxc e
    · exact hg hm
  · rcases List.mem_cons.mp hx with rfl | hx
    · exact hreg
    · exact htr.2 x hx
  · obtain ⟨hx1, hxc⟩ := hkeep S x hx
    obtain ⟨hxr, hxo⟩ := hmem S x hx1
    exact ⟨hxr, by rw [send_runUnregister h h1 c hrun x hxc]; exact hxo⟩
  · have hxc : x ≠ c := fun e => hx (e ▸ hreg)
    rw [send_runUnregister h h1 c hrun x hxc]
    exact hfresh x hx

/-- The broadcast case keeps the state healthy. -/
theorem healthy_deliver (h h1 : WebSocketHandler) (msg : BroadcastMessage)
    (reg gone : List Client) (hh : healthy h reg gone) (hrun : h.deliver msg = .ok h1) :
    healthy h1 reg gone := by
  obtain ⟨htr, hmem, hfresh⟩ := hh
  have hsub : ∀ S x, x ∈ h1.members S → x ∈ h.members S := by
    intro S x hx
    by_cases hS : S = msg.sessionID
    · subst hS
      exact ((members_deliver h h1 msg hrun x).mp hx).1
    · have hcl := clients_deliver_other h h1 msg hrun S hS
      have hm : h1.members S = h.members S := by simp only [members, hcl]
      rw [← hm]
      exact hx
  refine ⟨⟨fun S x hx => htr.1 S x (hsub S x hx), htr.2⟩, fun S x hx => ?_, fun x hx => ?_⟩
  · have hx0 := hsub S x hx
    obtain ⟨hxr, hxo⟩ := hmem S x hx0
    refine ⟨hxr, ?_⟩
    obtain ⟨hsame, htarget⟩ := send_deliver h h1 msg hrun x
    by_cases ht : x ∈ h.members msg.sessionID ∧ some x ≠ msg.exclude
    · obtain ⟨-, -, happ⟩ := htarget ht.1 ht.2
      have hS : S = msg.sessionID := by
        rw [← (htr.1 S x hx0).2, (htr.1 _ x ht.1).2]
      subst hS
      have hnf : (h.send x).full = false := by
        cases hf : (h.send x).full with
        | false => rfl
        | true => exact absurd ⟨ht.2, hf⟩ ((members_deliver h h1 msg hrun x).mp hx).2
      rw [happ hnf]
      exact hxo
    · rw [hsame (by tauto)]
      exact hxo
  · have hnm : x ∉ h.members msg.sessionID := fun hm => hx (hmem _ x hm).1
    rw [(send_deliver h h1 msg hrun x).1 (Or.inl hnm)]
    exact hfresh x hx

/-- One event of a run that respects the lifecycle keeps the state healthy, with the
registered and unregistered connections updated by the event. -/
theorem healthy_exec :
    ∀ (evs : List Event) (reg gone : List Client) (h h1 : WebSocketHandler),
      lifecycle reg gone evs = true → healthy h reg gone → h.exec evs = .ok h1 →
      ∃ reg1 gone1, healthy h1 reg1 gone1 ∧
        (∀ x, x ∈ reg1 ↔ x ∈ reg ∨ x ∈ registered evs) ∧
        (∀ x, x ∈ gone1 ↔ x ∈ gone ∨ x ∈ unregistered evs) := by
  intro evs
  induction evs with
  | nil =>
    intro reg gone h h1 _ hh hrun
    simp only [WebSocketHandler.exec, Except.ok.injEq] at hrun
    subst hrun
    exact ⟨reg, gone, hh, by simp [registered], by simp [unregistered]⟩
  | cons e es ih =>
    intro reg gone h h1 hlife hh hrun
    obtain ⟨h2, hstep, hrest⟩ := exec_cons h h1 e es hrun
    cases e with
    | register c =>
      simp only [lifecycle, Bool.and_eq_true] at hlife
      have hnew : c ∉ reg := by simpa using hlife.1
      obtain ⟨reg1, gone1, hh1, hr, hg⟩ := ih (c :: reg) gone h2 h1 hlife.2
        (healthy_runRegister h h2 c reg gone hnew hh hstep) hrest
      refine ⟨reg1, gone1, hh1, fun x => ?_, fun x => ?_⟩
      · rw [hr x]
        simp only [registered, List.mem_cons]
        tauto
      · rw [hg x]
        simp only [unregistered]
    | unregister c =>
      simp only [lifecycle, Bool.and_eq_true] at hlife
      have hreg : c ∈ reg := by simpa using hlife.1.1
      obtain ⟨reg1, gone1, hh1, hr, hg⟩ := ih reg (c :: gone) h2 h1 hlife.2
        (healthy_runUnregister h h2 c reg gone hreg hh hstep) hrest
      refine ⟨reg1, gone1, hh1, fun x => ?_, fun x => ?_⟩
      · rw [hr x]
        simp only [registered]
      · rw [hg x]
        simp only [unregistered, List.mem_cons]
        tauto
    | broadcast =>
      simp only [lifecycle] at hlife
      have hh2 : healthy h2 reg gone := by
        simp only [step, runBroadcast] at hstep
        cases hq : h.broadcast with
        | nil => simp [hq] at hstep
        | cons msg pending =>
          simp only [hq] at hstep
          exact healthy_deliver { h with broadcast := pending } h2 msg reg gone hh hstep
      obtain ⟨reg1, gone1, hh1, hr, hg⟩ := ih reg gone h2 h1 hlife hh2 hrest
      exact ⟨reg1, gone1, hh1, by simpa [registered] using hr,
        by simpa [unregistered] using hg⟩
    | frame c d =>
      simp only [lifecycle, Bool.and_eq_true] at hlife
      have hcl := clients_readPump h h2 c d hstep
      have hcf := closed_readPump h h2 c d hstep
      have hm : ∀ S, h2.members S = h.members S := fun S => by simp only [members, hcl]
      have hh2 : healthy h2 reg gone := by
        obtain ⟨htr, hmem, hfresh⟩ := hh
        refine ⟨⟨fun S x hx => htr.1 S x (by rw [← hm S]; exact hx), htr.2⟩,
          fun S x hx => ?_, fun x hx => by rw [hcf x]; exact hfresh x hx⟩
        obtain ⟨hxr, hxo⟩ := hmem S x (by rw [← hm S]; exact hx)
        exact ⟨hxr, by rw [hcf x]; exact hxo⟩
      obtain ⟨reg1, gone1, hh1, hr, hg⟩ := ih reg gone h2 h1 hlife.2 hh2 hrest
      exact ⟨reg1, gone1, hh1, by simpa [registered] using hr,
        by simpa [unregistered] using hg⟩
    | flush c =>
      simp only [lifecycle, Bool.and_eq_true] at hlife
      have hcl := clients_writePump h h2 c hstep
      have hcf := closed_writePump h h2 c hstep
      have hm : ∀ S, h2.members S = h.members S := fun S => by simp only [members, hcl]
      have hh2 : healthy h2 reg gone := by
        obtain ⟨htr, hmem, hfresh⟩ := hh
        refine ⟨⟨fun S x hx => htr.1 S x (by rw [← hm S]; exact hx), htr.2⟩,
          fun S x hx => ?_, fun x hx => by rw [hcf x]; exact hfresh x hx⟩
        obtain ⟨hxr, hxo⟩ := hmem S x (by rw [← hm S]; exact hx)
        exact ⟨hxr, by rw [hcf x]; exact hxo⟩
      obtain ⟨reg1, gone1, hh1, hr, hg⟩ := ih reg gone h2 h1 hlife.2 hh2 hrest
      exact ⟨reg1, gone1, hh1, by simpa [registered] using hr,
        by simpa [unregistered] using hg⟩

/-- The empty hub is healthy. -/
theorem healthy_new (redis : RedisService) : healthy (WebSocketHandler.new redis) [] [] := by
  refine ⟨⟨fun S x hx => ?_, fun x hx => by cases hx⟩, fun S x hx => ?_, fun x _ => rfl⟩
  · simp [members, WebSocketHandler.new] at hx
  · simp [members, WebSocketHandler.new] at hx

/-- Method `broadcastToSession` never panics: it completes or blocks. -/
theorem broadcastToSession_no_panic (h : WebSocketHandler) (S : String) (m : WSMessage)
    (ex : Option Client) : panicked (h.broadcastToSession S m ex) = false := by
  by_cases hroom : h.broadcast.length < broadcastCap
  · rw [broadcastToSession_ok _ _ _ _ hroom]
    rfl
  · rw [broadcastToSession_blocked _ _ _ _ hroom]
    rfl

/-- The unregister case does not panic when its client, if it is a member of the bucket
of its session, has an open channel. -/
theorem runUnregister_no_panic (h : WebSocketHandler) (c : Client)
    (hopen : c ∈ h.members c.sessionID → (h.send c).closed = false) :
    panicked (h.runUnregister c) = false := by
  obtain ⟨h0, hrem⟩ := removeClient_ok h c hopen
  unfold runUnregister
  rw [hrem]
  exact broadcastToSession_no_panic _ _ _ _

/-- The broadcast case of `run` does not panic when every member of a bucket has an open
channel. -/
theorem runBroadcast_no_panic (h : WebSocketHandler)
    (hopen : ∀ S x, x ∈ h.members S → (h.send x).closed = false) :
    panicked h.runBroadcast = false := by
  unfold runBroadcast
  cases hq : h.broadcast with
  | nil => rfl
  | cons msg pending =>
    simp only
    obtain ⟨h1, hrun⟩ := deliver_ok { h with broadcast := pending } msg
      (fun x hx _ => hopen msg.sessionID x hx)
    rw [hrun]
    rfl

/-- The register case does not panic when the channel of its client is open. -/
theorem runRegister_no_panic (h : WebSocketHandler) (c : Client)
    (hopen : (h.send c).closed = false) : panicked (h.runRegister c) = false := by
  by_cases hroom : h.broadcast.length < broadcastCap
  · obtain ⟨h1, hrun⟩ := runRegister_ok h c hopen hroom
    rw [hrun]
    rfl
  · have hopen1 : ((h.insertClient c).send c).closed = false := hopen
    have hroom1 : ¬ (h.insertClient c).broadcast.length < broadcastCap := hroom
    unfold runRegister
    split
    · exact broadcastToSession_no_panic _ _ _ _
    · rw [offer_ok _ _ _ hopen1]
      simp only
      rw [offer_ok _ _ _ (by simp [Chan.offered_closed, hopen1])]
      exact broadcastToSession_no_panic _ _ _ _

/-! ## Confinement of a frame to the session of its connection -/

/-- The broadcast case never touches the store. -/
theorem redis_deliver (h h1 : WebSocketHandler) (msg : BroadcastMessage)
    (hrun : h.deliver msg = .ok h1) : h1.redis = h.redis := by
  cases hb : h.clients msg.sessionID with
  | none =>
    rw [deliver_none h msg hb] at hrun
    cases hrun
    rfl
  | some b =>
    obtain ⟨-, -, -, -, -, hr, -⟩ := deliver_some h h1 msg b hb hrun
    exact hr

/-- The broadcast case changes the channel of exactly the connections it sends to. -/
theorem send_deliver_changed (h h1 : WebSocketHandler) (msg : BroadcastMessage)
    (hrun : h.deliver msg = .ok h1) (x : Client) :
    h1.send x = h.send x ↔ ¬ (x ∈ h.members msg.sessionID ∧ some x ≠ msg.exclude) := by
  obtain ⟨hsame, htarget⟩ := send_deliver h h1 msg hrun x
  constructor
  · rintro heq ⟨hx, hex⟩
    obtain ⟨hopen, hfull, hroom⟩ := htarget hx hex
    cases hf : (h.send x).full with
    | true =>
      have := hfull hf
      rw [heq] at this
      have hc := congrArg Chan.closed this
      simp [hopen] at hc
    | false =>
      have := hroom hf
      rw [heq] at this
      have hl := congrArg (fun ch => ch.buf.length) this
      simp at hl
  · intro hn
    exact hsame (by tauto)

/-- The store write of the reader does not depend on the `session_id` field of the
frame. -/
theorem storeAfterFrame_sessionID (h : WebSocketHandler) (c : Client) (m : WSMessage)
    (sid : String) :
    h.storeAfterFrame c { m with SessionID := sid } = h.storeAfterFrame c m := rfl

/-- The store write of the reader changes only the session saved under the session id of
the connection, when that session is saved under its own id. -/
theorem storeAfterFrame_other (h : WebSocketHandler) (c : Client) (m : WSMessage)
    (hkey : ∀ s, h.redis.GetSession c.sessionID = some s → s.ID = c.sessionID)
    (k : String) (hk : k ≠ c.sessionID) :
    (h.storeAfterFrame c m).GetSession k = h.redis.GetSession k := by
  unfold storeAfterFrame
  cases hs : h.redis.GetSession c.sessionID with
  | none =>
    simp only [RedisService.UpdateCode, RedisService.UpdateLanguage, hs]
    split_ifs <;> (try split) <;> rfl
  | some s =>
    have hid : s.ID = c.sessionID := hkey s hs
    simp only [RedisService.UpdateCode, RedisService.UpdateLanguage, hs]
    split_ifs
    · split
      · rw [RedisService.GetSession_UpdateSession]
        simp [hid, hk]
      · rfl
    · split
      · rw [RedisService.GetSession_UpdateSession]
        simp [hid, hk]
      · rfl
    · rfl

end WebSocketHandler

namespace RedisService

/-- A store that holds no session is keyed. -/
theorem keyed_empty : keyed { data := fun _ => none } := by
  intro k s hs
  simp [GetSession] at hs

/-- Writing a session keeps the store keyed. -/
theorem keyed_UpdateSession (r : RedisService) (s : Session) (hr : r.keyed) :
    (r.UpdateSession s).keyed := by
  intro k t ht
  rw [GetSession_UpdateSession] at ht
  by_cases hk : k = s.ID
  · simp only [hk, if_true, Option.some.injEq] at ht
    rw [← ht, hk]
  · simp only [hk, if_false] at ht
    exact hr k t ht

/-- Operation `AddUserToSession` keeps the store keyed. -/
theorem keyed_AddUserToSession (r r1 : RedisService) (k : String) (u : User)
    (hr : r.keyed) (hcall : r.AddUserToSession k u = some r1) : r1.keyed := by
  unfold AddUserToSession at hcall
  split at hcall
  · cases hcall
  · split_ifs at hcall
    · cases hcall; exact hr
    · cases hcall; exact keyed_UpdateSession _ _ hr

/-- Operation `RemoveUserFromSession` keeps the store keyed. -/
theorem keyed_RemoveUserFromSession (r r1 : RedisService) (k uid : String)
    (hr : r.keyed) (hcall : r.RemoveUserFromSession k uid = some r1) : r1.keyed := by
  unfold RemoveUserFromSession at hcall
  split at hcall
  · cases hcall
  · cases hcall; exact keyed_UpdateSession _ _ hr

/-- Operation `UpdateCode` leaves the store keyed when the writes in between do. -/
theorem keyed_UpdateCode (r r1 : RedisService) (others : RedisService → RedisService)
    (k code : String) (hr : (others r).keyed) (hcall : r.UpdateCode others k code = some r1) :
    r1.keyed := by
  unfold UpdateCode at hcall
  split at hcall
  · cases hcall
  · cases hcall; exact keyed_UpdateSession _ _ hr

/-- Operation `UpdateLanguage` leaves the store keyed when the writes in between do. -/
theorem keyed_UpdateLanguage (r r1 : RedisService) (others : RedisService → RedisService)
    (k language : String) (hr : (others r).keyed)
    (hcall : r.UpdateLanguage others k language = some r1) : r1.keyed := by
  unfold UpdateLanguage at hcall
  split at hcall
  · cases hcall
  · cases hcall; exact keyed_UpdateSession _ _ hr

end RedisService

namespace WebSocketHandler

/-! ## The reader while others write the store -/

/-- Without writes of others in between, the iteration is the one of `readPump`. -/
theorem readPumpRacing_id (h : WebSocketHandler) (c : Client) (d : Option WSMessage) :
    h.readPumpRacing c d id = h.readPump c d := by
  unfold readPumpRacing readPump
  cases d with
  | none => rfl
  | some m =>
    simp only
    split_ifs
    · rfl
    · split
      · split <;> rfl
      · rfl
    · split
      · split <;> rfl
      · rfl
    · rfl
    · rfl

/-- On a `code_change` frame carrying a string code, for a session found by the read,
the iteration writes the session that was read, with the code replaced, on the store as
the others left it, and then sends one command to the hub. -/
theorem readPumpRacing_code (h : WebSocketHandler) (c : Client) (m : WSMessage)
    (others : RedisService → RedisService) (s : Session) (code : String)
    (hty : m.Type_ = "code_change") (hcode : stringField m.Data "code" = some code)
    (hs : h.redis.GetSession c.sessionID = some s) :
    h.readPumpRacing c (some m) others =
      ({ h with redis := (others h.redis).UpdateSession { s with Code := code } } :
        WebSocketHandler).broadcastToSession c.sessionID m (some c) := by
  unfold readPumpRacing
  simp only [hty, hcode, RedisService.UpdateCode, hs]
  simp only [show ("code_change" : String) ≠ "cursor_move" by decide, if_false, if_true]

/-- On a `language_change` frame carrying a string language, for a session found by the
read, the iteration writes the session that was read, with the language replaced, on the
store as the others left it, and then sends one command to the hub. -/
theorem readPumpRacing_language (h : WebSocketHandler) (c : Client) (m : WSMessage)
    (others : RedisService → RedisService) (s : Session) (language : String)
    (hty : m.Type_ = "language_change")
    (hlang : stringField m.Data "language" = some language)
    (hs : h.redis.GetSession c.sessionID = some s) :
    h.readPumpRacing c (some m) others =
      ({ h with redis := (others h.redis).UpdateSession { s with Language := language } } :
        WebSocketHandler).broadcastToSession c.sessionID m (some c) := by
  unfold readPumpRacing
  simp only [hty, hlang, RedisService.UpdateLanguage, hs]
  simp only [show ("language_change" : String) ≠ "cursor_move" by decide,
    show ("language_change" : String) ≠ "code_change" by decide, if_false, if_true]

end WebSocketHandler


/-! ## Claims -/

set_option maxRecDepth 100000

namespace WebSocketHandler

/-- C1: a broadcast step `(S, event, excludeC)` leaves the outbound queue of `excludeC`
exactly as it was, whether or not `excludeC` is in the bucket of `S`; and the step runs to
completion whenever the connections it sends to have open queues. -/
theorem broadcast_excluded_queue_unchanged (h : WebSocketHandler) (S : String)
    (event : Bytes) (excludeC : Client) :
    (∀ h1, h.deliver ⟨S, event, some excludeC⟩ = .ok h1 →
      h1.send excludeC = h.send excludeC) ∧
    (h.targetsOpen ⟨S, event, some excludeC⟩ →
      ∃ h1, h.deliver ⟨S, event, some excludeC⟩ = .ok h1) := by
  refine ⟨fun h1 hrun => ?_, deliver_ok h _⟩
  exact (send_deliver h h1 _ hrun excludeC).1 (Or.inr rfl)

/-- C1 on the sample state: broadcasting a cursor event of `clientB` to `S1` completes
and leaves the queue of `clientB` as it was. -/
theorem broadcast_excluded_queue_unchanged_witness :
    ∃ h1, Sample.crowded.deliver ⟨"S1", Sample.cursorEvent, some Sample.clientB⟩ = .ok h1 ∧
      h1.send Sample.clientB = Sample.crowded.send Sample.clientB := by
  have hthm := broadcast_excluded_queue_unchanged Sample.crowded "S1" Sample.cursorEvent
    Sample.clientB
  obtain ⟨h1, hrun⟩ := hthm.2 (by unfold targetsOpen; decide)
  exact ⟨h1, hrun, hthm.1 h1 hrun⟩

/-- C2: in a broadcast step, every member of the bucket of the session, other than the
excluded connection, whose outbound queue is full when the step reaches it is no longer
a member after the step and its queue is closed; the step runs to completion whenever the
connections it sends to have open queues. -/
theorem broadcast_drops_full (h : WebSocketHandler) (msg : BroadcastMessage) :
    (∀ h1, h.deliver msg = .ok h1 →
      ∀ c ∈ h.members msg.sessionID, some c ≠ msg.exclude → (h.send c).full = true →
        c ∉ h1.members msg.sessionID ∧ (h1.send c).closed = true) ∧
    (h.targetsOpen msg → ∃ h1, h.deliver msg = .ok h1) := by
  refine ⟨fun h1 hrun c hc hex hf => ⟨?_, ?_⟩, deliver_ok h msg⟩
  · intro hmem
    exact ((members_deliver h h1 msg hrun c).mp hmem).2 ⟨hex, hf⟩
  · rw [((send_deliver h h1 msg hrun c).2 hc hex).2.1 hf]

/-- C2 on the sample state: `clientA`, whose queue holds 256 messages, is dropped from the
bucket of `S1` and its queue is closed. -/
theorem broadcast_drops_full_witness :
    (Sample.crowded.send Sample.clientA).buf.length = 256 ∧
    ∃ h1, Sample.crowded.deliver ⟨"S1", Sample.cursorEvent, some Sample.clientB⟩ = .ok h1 ∧
      Sample.clientA ∉ h1.members "S1" ∧ (h1.send Sample.clientA).closed = true := by
  have hthm := broadcast_drops_full Sample.crowded
    ⟨"S1", Sample.cursorEvent, some Sample.clientB⟩
  obtain ⟨h1, hrun⟩ := hthm.2 (by unfold targetsOpen; decide)
  exact ⟨by decide, h1, hrun,
    hthm.1 h1 hrun Sample.clientA (by decide) (by decide) (by decide)⟩

/-- C3: in a broadcast step, every member of the bucket of the session, other than the
excluded connection, whose outbound queue is not full gets the serialized event appended
once at the tail of its queue, keeps its earlier contents and its open queue, and stays
in the bucket, whatever happens to the other members; the step runs to completion
whenever the connections it sends to have open queues. -/
theorem broadcast_enqueues_when_room (h : WebSocketHandler) (msg : BroadcastMessage) :
    (∀ h1, h.deliver msg = .ok h1 →
      ∀ c ∈ h.members msg.sessionID, some c ≠ msg.exclude → (h.send c).full = false →
        (h1.send c).buf = (h.send c).buf ++ [msg.message] ∧
        (h1.send c).closed = false ∧ c ∈ h1.members msg.sessionID) ∧
    (h.targetsOpen msg → ∃ h1, h.deliver msg = .ok h1) := by
  refine ⟨fun h1 hrun c hc hex hf => ?_, deliver_ok h msg⟩
  obtain ⟨hopen, -, hroom⟩ := (send_deliver h h1 msg hrun c).2 hc hex
  refine ⟨?_, ?_, ?_⟩
  · rw [hroom hf]
  · rw [hroom hf]; exact hopen
  · exact (members_deliver h h1 msg hrun c).mpr ⟨hc, fun ⟨_, hf1⟩ => by rw [hf] at hf1; cases hf1⟩

/-- C3 on the sample state: `clientC` receives the event and stays in the bucket of `S1`
although `clientA` is dropped by the same step. -/
theorem broadcast_enqueues_when_room_witness :
    ∃ h1, Sample.crowded.deliver ⟨"S1", Sample.cursorEvent, some Sample.clientB⟩ = .ok h1 ∧
      (h1.send Sample.clientC).buf = [Sample.cursorEvent] ∧
      (h1.send Sample.clientC).closed = false ∧ Sample.clientC ∈ h1.members "S1" := by
  have hthm := broadcast_enqueues_when_room Sample.crowded
    ⟨"S1", Sample.cursorEvent, some Sample.clientB⟩
  obtain ⟨h1, hrun⟩ := hthm.2 (by unfold targetsOpen; decide)
  exact ⟨h1, hrun,
    hthm.1 h1 hrun Sample.clientC (by decide) (by decide) (by decide)⟩

/-- C4: after any sequence of events of the process started from an empty hub in which
connections follow their lifecycle (each registered at most once, as `HandleWebSocket`
does, and unregistered by its reader afterwards), no bucket of the registry holds a
connection that has been unregistered. -/
theorem unregistered_in_no_bucket (redis : RedisService) (evs : List Event)
    (h : WebSocketHandler) (hlife : lifecycle [] [] evs = true)
    (hrun : (WebSocketHandler.new redis).exec evs = .ok h)
    (c : Client) (hgone : Event.unregister c ∈ evs) :
    ∀ S b, h.clients S = some b → c ∉ b.elems := by
  intro S b hb hmem
  have htr : tracked (WebSocketHandler.new redis) [] [] := by
    refine ⟨fun S x hx => ?_, fun x hx => by cases hx⟩
    simp [members, WebSocketHandler.new] at hx
  refine exec_tracked evs [] [] _ h hlife htr hrun c (Or.inr hgone) S ?_
  rw [members_of_some h S b hb]
  exact hmem

/-- C4 on a run: `clientA` and `clientB` join `S1`, then `clientA` unregisters; the
bucket of `S1` still exists and does not hold `clientA`. -/
theorem unregistered_in_no_bucket_witness :
    ∃ h b, (WebSocketHandler.new Sample.emptyStore).exec Sample.joinLeave = .ok h ∧
      h.clients "S1" = some b ∧ Sample.clientA ∉ b.elems ∧ Sample.clientB ∈ b.elems := by
  obtain ⟨h, hrun⟩ := exists_ok_of_toBool
    ((WebSocketHandler.new Sample.emptyStore).exec Sample.joinLeave) (by decide)
  have hB : Sample.clientB ∈ h.members "S1" := by
    have : (match (WebSocketHandler.new Sample.emptyStore).exec Sample.joinLeave with
        | .ok h => decide (Sample.clientB ∈ h.members "S1")
        | .error _ => false) = true := by decide
    rw [hrun] at this
    simpa using this
  cases hb : h.clients "S1" with
  | none => simp [members, hb] at hB
  | some b =>
    refine ⟨h, b, hrun, hb, ?_, by simpa [members, hb] using hB⟩
    exact unregistered_in_no_bucket Sample.emptyStore Sample.joinLeave h (by decide) hrun
      Sample.clientA (by decide) "S1" b hb

/-- C6, evaluated on the run `Sample.slowConsumer`: the run respects the lifecycle of
connections and completes, both connections that registered on `S1` have unregistered,
no command is pending, and the registry still has a bucket for `S1`, with no member. The
broadcast case dropped the last member without the emptiness check of the unregister
case, and the later unregister of that member found nothing to delete. -/
theorem empty_bucket_survives_unregister :
    lifecycle [] [] Sample.slowConsumer = true ∧
    registered Sample.slowConsumer = [Sample.clientA, Sample.clientB] ∧
    unregistered Sample.slowConsumer = [Sample.clientB, Sample.clientA] ∧
    ∃ h b, (WebSocketHandler.new Sample.emptyStore).exec Sample.slowConsumer = .ok h ∧
      h.broadcast = [] ∧ h.clients "S1" = some b ∧ b.elems = [] := by
  refine ⟨by decide, by decide, by decide, ?_⟩
  obtain ⟨h, hrun, hcheck⟩ := ok_of_check
    ((WebSocketHandler.new Sample.emptyStore).exec Sample.slowConsumer)
    (fun g => decide (g.broadcast = []) &&
      (match g.clients "S1" with
        | some b => decide (b.elems = [])
        | none => false))
    (by decide)
  simp only [Bool.and_eq_true, decide_eq_true_eq] at hcheck
  obtain ⟨hq, hb⟩ := hcheck
  cases hcl : h.clients "S1" with
  | none => simp [hcl] at hb
  | some b => exact ⟨h, b, hrun, hq, hcl, by simpa [hcl] using hb⟩

end WebSocketHandler

namespace RedisService

/-- C7: for a session saved in the store, `AddUserToSession` succeeds, and applying it a
second time with the same participant succeeds and leaves the store, hence the participant
list of the session and its length, exactly as the first application left them. When the
session is saved under its own id, the participant id is in the list after the first
application, and a second application with any participant of the same id changes
nothing. -/
theorem addUser_twice_same (r : RedisService) (sessionID : String) (session : Session)
    (u : User) (hstored : r.GetSession sessionID = some session) :
    ∃ r1, r.AddUserToSession sessionID u = some r1 ∧
      r1.AddUserToSession sessionID u = some r1 ∧
      (session.ID = sessionID →
        u.ID ∈ (r1.usersOf sessionID).map User.ID ∧
        ∀ v : User, v.ID = u.ID → r1.AddUserToSession sessionID v = some r1) := by
  by_cases hin : session.Users.any (fun x => x.ID == u.ID) = true
  · -- already a participant: both calls return without writing
    have hcall : r.AddUserToSession sessionID u = some r := by
      simp only [AddUserToSession, hstored, hin, if_true]
    refine ⟨r, hcall, hcall, fun _ => ⟨?_, fun v hv => ?_⟩⟩
    · simp only [usersOf, hstored, List.mem_map]
      obtain ⟨x, hx, hxu⟩ := List.any_eq_true.mp hin
      exact ⟨x, hx, by simpa using hxu⟩
    · simp only [AddUserToSession, hstored, hv, hin, if_true]
  · -- a new participant: the first call appends and writes
    have hcall : r.AddUserToSession sessionID u =
        some (r.UpdateSession { session with Users := session.Users ++ [u] }) := by
      simp only [AddUserToSession, hstored, hin, if_false, Bool.false_eq_true]
    refine ⟨_, hcall, ?_, fun hid => ?_⟩
    · by_cases hid : session.ID = sessionID
      · have hget : (r.UpdateSession { session with Users := session.Users ++ [u] }).GetSession
            sessionID = some { session with Users := session.Users ++ [u] } := by
          simp [GetSession, UpdateSession, hid]
        simp [AddUserToSession, hget]
      · have hget : (r.UpdateSession { session with Users := session.Users ++ [u] }).GetSession
            sessionID = some session := by
          simp only [GetSession, UpdateSession]
          rw [Function.update_noteq (Ne.symm hid)]
          exact hstored
        simp only [AddUserToSession, hget, hin, if_false, Bool.false_eq_true]
        simp [UpdateSession]
    · have hget : (r.UpdateSession { session with Users := session.Users ++ [u] }).GetSession
          sessionID = some { session with Users := session.Users ++ [u] } := by
        simp [GetSession, UpdateSession, hid]
      refine ⟨by simp [usersOf, hget], fun v hv => ?_⟩
      simp [AddUserToSession, hget, hv]

/-- C7 on the sample store: `userB` joins `S1` twice; after the first call the list is
`[userA, userB]`, and the second call leaves it so. -/
theorem addUser_twice_same_witness :
    ∃ r1, Sample.storeS1.AddUserToSession "S1" Sample.userB = some r1 ∧
      r1.AddUserToSession "S1" Sample.userB = some r1 ∧
      r1.usersOf "S1" = [Sample.userA, Sample.userB] := by
  obtain ⟨r1, h1, h2, -⟩ := addUser_twice_same Sample.storeS1 "S1" Sample.storedS1
    Sample.userB (by decide)
  refine ⟨r1, h1, h2, ?_⟩
  have hcheck : (match Sample.storeS1.AddUserToSession "S1" Sample.userB with
      | some g => decide (g.usersOf "S1" = [Sample.userA, Sample.userB])
      | none => false) = true := by decide
  rw [h1] at hcheck
  simpa using hcheck

end RedisService

namespace WebSocketHandler

/-- C8: let `A` and `B` be distinct connections, `B` a member of the bucket of the session
of `A` with room in its queue, and let the reader of `A` handle a `code_change` frame
carrying the code `c`. Then the reader sends the hub one command, and once the hub has
served it the queue of `B` has gained exactly that `code_change` event, whose payload code
is `c`, at its tail, and the queue of `A` is as it was. The reader and the hub both
complete when the `broadcast` channel has room and the other members have open queues. -/
theorem code_change_reaches_peer_only (h : WebSocketHandler) (A B : Client) (m : WSMessage)
    (c : String) (hAB : A ≠ B) (hB : B ∈ h.members A.sessionID)
    (hroom : (h.send B).full = false)
    (hty : m.Type_ = "code_change") (hcode : stringField m.Data "code" = some c) :
    (∀ h1, h.readPump A (some m) = .ok h1 →
      h1.broadcast = h.broadcast ++ [⟨A.sessionID, marshal m, some A⟩] ∧
      ∀ h2, h1.deliver ⟨A.sessionID, marshal m, some A⟩ = .ok h2 →
        (h2.send B).buf = (h.send B).buf ++ [marshal m] ∧
        (marshal m).Type_ = "code_change" ∧ stringField (marshal m).Data "code" = some c ∧
        h2.send A = h.send A) ∧
    ((∀ x ∈ h.members A.sessionID, x ≠ A → (h.send x).closed = false) →
      h.broadcast.length < broadcastCap →
      ∃ h1 h2, h.readPump A (some m) = .ok h1 ∧
        h1.deliver ⟨A.sessionID, marshal m, some A⟩ = .ok h2) := by
  have hfwd := readPump_forward h A m (Or.inr (Or.inl hty))
  constructor
  · intro h1 hrun
    rw [hfwd] at hrun
    obtain ⟨-, rfl⟩ := broadcastToSession_spec _ _ _ _ _ hrun
    refine ⟨rfl, fun h2 hrun2 => ?_⟩
    obtain ⟨hsame, htarget⟩ := send_deliver _ h2 _ hrun2 B
    obtain ⟨-, -, happ⟩ := htarget hB (fun e => hAB (Option.some.inj e).symm)
    refine ⟨by rw [happ hroom], hty, hcode, ?_⟩
    exact (send_deliver _ h2 _ hrun2 A).1 (Or.inr rfl)
  · intro hopen hpend
    rw [hfwd]
    have hpend1 : ({ h with redis := h.storeAfterFrame A m } :
        WebSocketHandler).broadcast.length < broadcastCap := hpend
    rw [broadcastToSession_ok _ _ _ _ hpend1]
    obtain ⟨h2, hrun2⟩ := deliver_ok
      ({ h with redis := h.storeAfterFrame A m
                broadcast := h.broadcast ++ [⟨A.sessionID, marshal m, some A⟩] } :
        WebSocketHandler)
      ⟨A.sessionID, marshal m, some A⟩
      (fun x hx hex => hopen x hx (fun e => hex (by rw [e])))
    exact ⟨_, h2, rfl, hrun2⟩

/-- C8 on the scenario of the specification: `clientA` and `clientB` are on `S1` and
`clientA` sends `code_change("print(1)")`; `clientB` gets that event and `clientA` gets
nothing. -/
theorem code_change_reaches_peer_only_witness :
    ∃ h1 h2, Sample.pair.readPump Sample.clientA (some Sample.codeFrame) = .ok h1 ∧
      h1.deliver ⟨"S1", Sample.codeFrame, some Sample.clientA⟩ = .ok h2 ∧
      (h2.send Sample.clientB).buf = [Sample.codeFrame] ∧
      stringField Sample.codeFrame.Data "code" = some "print(1)" ∧
      (h2.send Sample.clientA).buf = [] := by
  have hthm := code_change_reaches_peer_only Sample.pair Sample.clientA Sample.clientB
    Sample.codeFrame "print(1)" (by decide) (by decide) (by decide) (by decide) (by decide)
  obtain ⟨h1, h2, hrun, hrun2⟩ := hthm.2 (by decide) (by decide)
  obtain ⟨-, hserve⟩ := hthm.1 h1 hrun
  obtain ⟨hB, -, hc, hA⟩ := hserve h2 hrun2
  exact ⟨h1, h2, hrun, hrun2, hB, hc, by rw [hA]; rfl⟩

/-- C9 fails on a closed queue and does not complete on a full one: on the sample state,
once a broadcast has dropped `clientA` and closed its queue, the reader of `clientA`
handling a ping panics with a send on a closed channel; and before the drop, when the
queue of `clientA` is open and holds 256 messages, the send of the reply blocks. In
neither case is a pong appended. -/
theorem ping_without_pong :
    (∃ h1, Sample.crowded.deliver ⟨"S1", Sample.cursorEvent, some Sample.clientB⟩ = .ok h1 ∧
      h1.readPump Sample.clientA (some Sample.pingFrame) = .error .sendOnClosed) ∧
    Sample.crowded.readPump Sample.clientA (some Sample.pingFrame) = .error .blocked := by
  constructor
  · obtain ⟨h1, hrun, hcheck⟩ := ok_of_check
      (Sample.crowded.deliver ⟨"S1", Sample.cursorEvent, some Sample.clientB⟩)
      (fun g => (g.send Sample.clientA).closed) (by decide)
    refine ⟨h1, hrun, ?_⟩
    rw [readPump_ping h1 Sample.clientA Sample.pingFrame rfl]
    simp [Chan.sendBlocking, hcheck]
  · rw [readPump_ping Sample.crowded Sample.clientA Sample.pingFrame rfl]
    have hopen : (Sample.crowded.send Sample.clientA).closed = false := by decide
    have hfull : (Sample.crowded.send Sample.clientA).full = true := by decide
    simp [Chan.sendBlocking, hopen, hfull]

/-- C9, amended: in every hub state in which the outbound queue of `A` is open and not
full, the reader of `A` handling a ping frame appends exactly one pong event, carrying
the session id of `A`, at the tail of the queue of `A`; the queue of every other
connection, the `broadcast` channel (no command is sent to the hub), the registry and the
store are unchanged. -/
theorem ping_gets_one_pong (h : WebSocketHandler) (A : Client) (m : WSMessage)
    (hty : m.Type_ = "ping") (hopen : (h.send A).closed = false)
    (hroom : (h.send A).full = false) :
    ∃ h1, h.readPump A (some m) = .ok h1 ∧
      (h1.send A).buf = (h.send A).buf ++ [marshal (pongMsg A)] ∧
      (h1.send A).closed = false ∧
      (pongMsg A).Type_ = "pong" ∧ (pongMsg A).SessionID = A.sessionID ∧
      (∀ x, x ≠ A → h1.send x = h.send x) ∧
      h1.broadcast = h.broadcast ∧ h1.clients = h.clients ∧ h1.redis = h.redis := by
  refine ⟨{ h with
      send := Function.update h.send A
        { h.send A with buf := (h.send A).buf ++ [marshal (pongMsg A)] } }, ?_, ?_⟩
  · rw [readPump_ping h A m hty]
    simp [Chan.sendBlocking, hopen, hroom]
  · refine ⟨by simp, by simpa using hopen, rfl, rfl, fun x hx => ?_, rfl, rfl, rfl⟩
    simp [Function.update_noteq hx]

/-- C9, amended, on the sample state: `clientB`, whose queue holds one message, sends a
ping and finds the pong behind that message. -/
theorem ping_gets_one_pong_witness :
    ∃ h1, Sample.crowded.readPump Sample.clientB (some Sample.pingFrame) = .ok h1 ∧
      (h1.send Sample.clientB).buf = [Sample.cursorEvent, pongMsg Sample.clientB] ∧
      h1.send Sample.clientC = Sample.crowded.send Sample.clientC ∧
      h1.broadcast = [] := by
  obtain ⟨h1, hrun, hbuf, -, -, -, hothers, hq, -, -⟩ :=
    ping_gets_one_pong Sample.crowded Sample.clientB Sample.pingFrame rfl (by decide)
      (by decide)
  exact ⟨h1, hrun, by rw [hbuf]; rfl, hothers Sample.clientC (by decide), by rw [hq]; rfl⟩

/-- C10: let `A` and `B` be distinct members of the bucket of the session of `A`, with
room in the queue of `B`. The unregister case for `A` sends one `user_leave` command, and
once the hub has served it the queue of `B` has gained the `user_leave` event whose user
id is the participant id of `A`, the queue of `A` is closed, and the registry still has
the bucket of the session, holding `B` and not `A`. Both cases complete when the members
have open queues and the `broadcast` channel has room. -/
theorem leave_announced_to_peer (h : WebSocketHandler) (A B : Client) (hAB : A ≠ B)
    (hA : A ∈ h.members A.sessionID) (hB : B ∈ h.members A.sessionID)
    (hroom : (h.send B).full = false) :
    (∀ h1, h.runUnregister A = .ok h1 →
      h1.broadcast = h.broadcast ++ [⟨A.sessionID, marshal (userLeaveMsg A), none⟩] ∧
      ∀ h2, h1.deliver ⟨A.sessionID, marshal (userLeaveMsg A), none⟩ = .ok h2 →
        (h2.send B).buf = (h.send B).buf ++ [marshal (userLeaveMsg A)] ∧
        (userLeaveMsg A).Type_ = "user_leave" ∧ (userLeaveMsg A).UserID = A.user.ID ∧
        (h2.send A).closed = true ∧
        ∃ b, h2.clients A.sessionID = some b ∧ B ∈ b.elems ∧ A ∉ b.elems) ∧
    ((∀ x ∈ h.members A.sessionID, (h.send x).closed = false) →
      h.broadcast.length < broadcastCap →
      ∃ h1 h2, h.runUnregister A = .ok h1 ∧
        h1.deliver ⟨A.sessionID, marshal (userLeaveMsg A), none⟩ = .ok h2) := by
  constructor
  · intro h1 hrun
    obtain ⟨h0, hrem, hcl, hsend, -, hq, -⟩ := runUnregister_spec h h1 A hrun
    refine ⟨hq, fun h2 hrun2 => ?_⟩
    obtain ⟨-, -, hcase⟩ := removeClient_spec h h0 A hrem
    rcases hcase with ⟨hnot, -⟩ | ⟨-, -, hsend0, -⟩
    · exact absurd hA hnot
    · have hsendB : h1.send B = h.send B := by
        rw [hsend, hsend0, Function.update_noteq (Ne.symm hAB)]
      have hsendA : (h1.send A).closed = true := by
        rw [hsend, hsend0, Function.update_same]
      have hB1 : B ∈ h1.members A.sessionID :=
        (members_runUnregister h h1 A hrun _ B).mpr ⟨hB, fun e => hAB e.1.symm⟩
      have hA1 : A ∉ h1.members A.sessionID := fun hmem =>
        ((members_runUnregister h h1 A hrun _ A).mp hmem).2 ⟨rfl, rfl⟩
      obtain ⟨-, -, happ⟩ := (send_deliver h1 h2 _ hrun2 B).2 hB1 (by simp)
      have hB2 : B ∈ h2.members A.sessionID :=
        (members_deliver h1 h2 _ hrun2 B).mpr
          ⟨hB1, fun e => by rw [hsendB, hroom] at e; cases e.2⟩
      have hA2 : A ∉ h2.members A.sessionID := fun hmem =>
        hA1 ((members_deliver h1 h2 _ hrun2 A).mp hmem).1
      obtain ⟨b, hb, hBb⟩ := bucket_of_member h2 _ B hB2
      refine ⟨?_, rfl, rfl, ?_, b, hb, hBb, ?_⟩
      · rw [happ (by rw [hsendB]; exact hroom), hsendB]
      · rw [(send_deliver h1 h2 _ hrun2 A).1 (Or.inl hA1)]
        exact hsendA
      · rw [← members_of_some h2 _ b hb]
        exact hA2
  · intro hopen hpend
    obtain ⟨h0, hrem⟩ := removeClient_ok h A (fun hm => hopen A hm)
    obtain ⟨hr0, hq0, -⟩ := removeClient_spec h h0 A hrem
    have hrun : ∃ h1, h.runUnregister A = .ok h1 := by
      unfold runUnregister
      rw [hrem]
      exact ⟨_, broadcastToSession_ok _ _ _ _ (by simpa [hq0] using hpend)⟩
    obtain ⟨h1, hrun⟩ := hrun
    obtain ⟨h0a, hrem1, -, hsend, -⟩ := runUnregister_spec h h1 A hrun
    rw [hrem] at hrem1
    cases hrem1
    obtain ⟨-, -, hcase⟩ := removeClient_spec h h0 A hrem
    rcases hcase with ⟨hnot, -⟩ | ⟨-, -, hsend0, -⟩
    · exact absurd hA hnot
    · obtain ⟨h2, hrun2⟩ := deliver_ok h1
        ⟨A.sessionID, marshal (userLeaveMsg A), none⟩
        (fun x hx _ => by
          obtain ⟨hx0, hne⟩ := (members_runUnregister h h1 A hrun _ x).mp hx
          have hxA : x ≠ A := fun e => hne ⟨e, rfl⟩
          rw [hsend, hsend0, Function.update_noteq hxA]
          exact hopen x hx0)
      exact ⟨h1, h2, hrun, hrun2⟩

/-- C10 on the scenario of the specification: `clientA` and `clientB` are on `S1` and
`clientA` disconnects; `clientB` gets `user_leave` with the id of `userA`, the queue of
`clientA` is closed, and the bucket of `S1` still holds `clientB`. -/
theorem leave_announced_to_peer_witness :
    ∃ h1 h2 b, Sample.pair.runUnregister Sample.clientA = .ok h1 ∧
      h1.deliver ⟨"S1", userLeaveMsg Sample.clientA, none⟩ = .ok h2 ∧
      (h2.send Sample.clientB).buf = [userLeaveMsg Sample.clientA] ∧
      (userLeaveMsg Sample.clientA).UserID = "ua" ∧
      (h2.send Sample.clientA).closed = true ∧
      h2.clients "S1" = some b ∧ Sample.clientB ∈ b.elems := by
  have hthm := leave_announced_to_peer Sample.pair Sample.clientA Sample.clientB
    (by decide) (by decide) (by decide) (by decide)
  obtain ⟨h1, h2, hrun, hrun2⟩ := hthm.2 (by decide) (by decide)
  obtain ⟨-, hserve⟩ := hthm.1 h1 hrun
  obtain ⟨hbuf, -, hid, hclosed, b, hb, hBb, -⟩ := hserve h2 hrun2
  exact ⟨h1, h2, b, hrun, hrun2, hbuf, hid, hclosed, hb, hBb⟩

end WebSocketHandler

namespace WebSocketHandler

/-- C11: let `C` register on its session. The register case sends the hub one `user_join`
command for that session, excluding `C`, and once the hub has served it every other
member of the bucket whose queue had room has gained, at its tail, the `user_join` event
carrying the full participant record of `C`, while every `user_join` event in the queue
of `C` was there before `C` registered: `C` gets no `user_join` for itself. Both cases
complete when the queue of `C` and the queues of the other members are open and the
`broadcast` channel has room. -/
theorem join_announced_to_peers (h : WebSocketHandler) (C : Client) :
    (∀ h1, h.runRegister C = .ok h1 →
      h1.broadcast = h.broadcast ++ [⟨C.sessionID, marshal (userJoinMsg C), some C⟩] ∧
      (userJoinMsg C).Type_ = "user_join" ∧ (userJoinMsg C).User = some C.user ∧
      ∀ h2, h1.deliver ⟨C.sessionID, marshal (userJoinMsg C), some C⟩ = .ok h2 →
        (∀ B ∈ h.members C.sessionID, B ≠ C → (h.send B).full = false →
          (h2.send B).buf = (h.send B).buf ++ [marshal (userJoinMsg C)]) ∧
        (∀ m ∈ (h2.send C).buf, m.Type_ = "user_join" → m ∈ (h.send C).buf)) ∧
    ((h.send C).closed = false → h.broadcast.length < broadcastCap →
      (∀ x ∈ h.members C.sessionID, x ≠ C → (h.send x).closed = false) →
      ∃ h1 h2, h.runRegister C = .ok h1 ∧
        h1.deliver ⟨C.sessionID, marshal (userJoinMsg C), some C⟩ = .ok h2) := by
  constructor
  · intro h1 hrun
    obtain ⟨-, -, -, hq, hothers, -⟩ := runRegister_spec h h1 C hrun
    refine ⟨hq, rfl, rfl, fun h2 hrun2 => ⟨fun B hB hBC hroom => ?_, fun m hm hty => ?_⟩⟩
    · have hB1 : B ∈ h1.members C.sessionID :=
        (members_runRegister h h1 C hrun _ B).mpr (Or.inl hB)
      have hex : some B ≠ (⟨C.sessionID, marshal (userJoinMsg C), some C⟩ :
          BroadcastMessage).exclude := fun e => hBC (Option.some.inj e)
      obtain ⟨-, -, happ⟩ := (send_deliver h1 h2 _ hrun2 B).2 hB1 hex
      rw [happ (by rw [hothers B hBC]; exact hroom), hothers B hBC]
    · rw [(send_deliver h1 h2 _ hrun2 C).1 (Or.inr rfl)] at hm
      rcases runRegister_gain h h1 C hrun m hm with hm | hcode | hlang
      · exact hm
      · rw [hcode] at hty
        exact absurd hty (by decide)
      · rw [hlang] at hty
        exact absurd hty (by decide)
  · intro hopen hpend hpeers
    obtain ⟨h1, hrun⟩ := runRegister_ok h C hopen hpend
    obtain ⟨-, -, -, -, hothers, -⟩ := runRegister_spec h h1 C hrun
    obtain ⟨h2, hrun2⟩ := deliver_ok h1 ⟨C.sessionID, marshal (userJoinMsg C), some C⟩
      (fun x hx hex => by
        have hxC : x ≠ C := fun e => hex (by rw [e])
        rcases (members_runRegister h h1 C hrun _ x).mp hx with hx | ⟨e, -⟩
        · rw [hothers x hxC]
          exact hpeers x hx hxC
        · exact absurd e hxC)
    exact ⟨h1, h2, hrun, hrun2⟩

/-- C11 on the sample state: `clientB` joins `S1`, where `clientA` is; `clientA` gets
`user_join` with the record of `userB`, and no message in the queue of `clientB` is a
`user_join`. -/
theorem join_announced_to_peers_witness :
    ∃ h1 h2, Sample.lobby.runRegister Sample.clientB = .ok h1 ∧
      h1.deliver ⟨"S1", userJoinMsg Sample.clientB, some Sample.clientB⟩ = .ok h2 ∧
      (h2.send Sample.clientA).buf = [userJoinMsg Sample.clientB] ∧
      (userJoinMsg Sample.clientB).User = some Sample.userB ∧
      ∀ m ∈ (h2.send Sample.clientB).buf, m.Type_ ≠ "user_join" := by
  have hthm := join_announced_to_peers Sample.lobby Sample.clientB
  obtain ⟨h1, h2, hrun, hrun2⟩ := hthm.2 (by decide) (by decide) (by decide)
  obtain ⟨-, -, huser, hserve⟩ := hthm.1 h1 hrun
  obtain ⟨hpeers, hself⟩ := hserve h2 hrun2
  refine ⟨h1, h2, hrun, hrun2, ?_, huser, fun m hm hty => ?_⟩
  · exact hpeers Sample.clientA (by decide) (by decide) (by decide)
  · have := hself m hm hty
    simp [Sample.lobby, Chan.fresh] at this

end WebSocketHandler

namespace WebSocketHandler

/-- C12 fails when another write comes between the read and the write of the update:
on the sample state, `S1` is stored with code `x` and language `y`; the reader of
`clientA` handles `code_change("print(1)")`, and between the `GetSession` and the
`UpdateSession` of its `UpdateCode` call the reader of `clientB` stores the language
`python`. Just before the write of `clientA` the stored language is `python`; after it
the stored session has code `print(1)` and language `y` again: the write of the
`code_change` frame has changed the language too. -/
theorem code_change_write_reverts_language :
    Sample.pair.redis.GetSession "S1" =
      some { ID := "S1", Code := "x", Language := "y", CreatedAt := 0,
             Users := [Sample.userA] } ∧
    (Sample.languageWrite Sample.pair.redis).GetSession "S1" =
      some { ID := "S1", Code := "x", Language := "python", CreatedAt := 0,
             Users := [Sample.userA] } ∧
    ∃ h1, Sample.pair.readPumpRacing Sample.clientA (some Sample.codeFrame)
        Sample.languageWrite = .ok h1 ∧
      h1.redis.GetSession "S1" =
        some { ID := "S1", Code := "print(1)", Language := "y", CreatedAt := 0,
               Users := [Sample.userA] } := by
  refine ⟨by decide, by decide, ?_⟩
  have hstep := readPumpRacing_code Sample.pair Sample.clientA Sample.codeFrame
    Sample.languageWrite Sample.storedS1 "print(1)" rfl (by decide) (by decide)
  rw [broadcastToSession_ok _ _ _ _ (by decide)] at hstep
  refine ⟨_, hstep, ?_⟩
  simp only [RedisService.GetSession_UpdateSession]
  rfl

/-- C12, amended: let `s` be a session present in the store (saved under its id) and `C`
a connection on it, and let the reader of `C` handle a `code_change` frame carrying the
text `c` while other goroutines write the store between the `GetSession` and the
`UpdateSession` of its `UpdateCode` call. The stored session afterwards is `s`, the
session that was read, with its code set to `c`: id, language, created-at and participant
list are those of `s`. So they are unchanged when no other write to that session came in
between, and a write to that session that did come in between is overwritten; every other
stored session is as the other goroutines left it. Symmetrically a `language_change`
frame carrying the tag `l` stores `s` with its language set to `l`. The reader completes
the step when the `broadcast` channel has room. -/
theorem frame_sets_only_its_field (h : WebSocketHandler) (C : Client) (s : Session)
    (m : WSMessage) (hstored : h.redis.GetSession s.ID = some s) (hon : C.sessionID = s.ID) :
    (∀ c, m.Type_ = "code_change" → stringField m.Data "code" = some c →
      (∀ others h1, h.readPumpRacing C (some m) others = .ok h1 →
        h1.redis.GetSession s.ID = some { s with Code := c } ∧
        ∀ k, k ≠ s.ID → h1.redis.GetSession k = (others h.redis).GetSession k) ∧
      (∀ others, h.broadcast.length < broadcastCap →
        ∃ h1, h.readPumpRacing C (some m) others = .ok h1)) ∧
    (∀ l, m.Type_ = "language_change" → stringField m.Data "language" = some l →
      (∀ others h1, h.readPumpRacing C (some m) others = .ok h1 →
        h1.redis.GetSession s.ID = some { s with Language := l } ∧
        ∀ k, k ≠ s.ID → h1.redis.GetSession k = (others h.redis).GetSession k) ∧
      (∀ others, h.broadcast.length < broadcastCap →
        ∃ h1, h.readPumpRacing C (some m) others = .ok h1)) := by
  have hread : h.redis.GetSession C.sessionID = some s := by rw [hon]; exact hstored
  constructor
  · intro c hty hcode
    refine ⟨fun others h1 hrun => ?_, fun others hroom => ?_⟩
    · rw [readPumpRacing_code h C m others s c hty hcode hread] at hrun
      obtain ⟨-, rfl⟩ := broadcastToSession_spec _ _ _ _ _ hrun
      refine ⟨?_, fun k hk => ?_⟩
      · simp only [RedisService.GetSession_UpdateSession]
        simp
      · simp only [RedisService.GetSession_UpdateSession]
        simp [hk]
    · rw [readPumpRacing_code h C m others s c hty hcode hread]
      exact ⟨_, broadcastToSession_ok _ _ _ _ hroom⟩
  · intro l hty hlang
    refine ⟨fun others h1 hrun => ?_, fun others hroom => ?_⟩
    · rw [readPumpRacing_language h C m others s l hty hlang hread] at hrun
      obtain ⟨-, rfl⟩ := broadcastToSession_spec _ _ _ _ _ hrun
      refine ⟨?_, fun k hk => ?_⟩
      · simp only [RedisService.GetSession_UpdateSession]
        simp
      · simp only [RedisService.GetSession_UpdateSession]
        simp [hk]
    · rw [readPumpRacing_language h C m others s l hty hlang hread]
      exact ⟨_, broadcastToSession_ok _ _ _ _ hroom⟩

/-- C12, amended, on the sample state: `clientA` sends `code_change("print(1)")` on `S1`,
stored with code `x` and language `y`, while the HTTP handler creates the session `S2`;
no other write reaches `S1`, so afterwards the stored code is `print(1)` and the language,
the creation instant and the participants are as before, and `S2` is stored. -/
theorem frame_sets_only_its_field_witness :
    ∃ h1, Sample.pair.readPumpRacing Sample.clientA (some Sample.codeFrame)
        Sample.createS2 = .ok h1 ∧
      h1.redis.GetSession "S1" =
        some { ID := "S1", Code := "print(1)", Language := "y", CreatedAt := 0,
               Users := [Sample.userA] } ∧
      h1.redis.GetSession "S2" = some Sample.storedS2 := by
  have hthm := (frame_sets_only_its_field Sample.pair Sample.clientA Sample.storedS1
    Sample.codeFrame (by decide) (by decide)).1 "print(1)" (by decide) (by decide)
  obtain ⟨h1, hrun⟩ := hthm.2 Sample.createS2 (by decide)
  obtain ⟨hS1, hother⟩ := hthm.1 Sample.createS2 h1 hrun
  refine ⟨h1, hrun, hS1, ?_⟩
  rw [hother "S2" (by decide)]
  decide

end WebSocketHandler

namespace WebSocketHandler

/-- C13 fails for a payload that lacks its field: on the sample state the reader of
`clientA` handles a `code_change` frame whose data carries no string code; it writes
nothing to the store, yet it sends the hub a broadcast command for the frame, and once
the hub has served it the frame is in the queue of `clientB`. -/
theorem frame_without_code_is_broadcast :
    stringField Sample.noCodeFrame.Data "code" = none ∧
    ∃ h1 h2, Sample.pair.readPump Sample.clientA (some Sample.noCodeFrame) = .ok h1 ∧
      h1.redis = Sample.pair.redis ∧
      h1.broadcast = [⟨"S1", Sample.noCodeFrame, some Sample.clientA⟩] ∧
      h1.deliver ⟨"S1", Sample.noCodeFrame, some Sample.clientA⟩ = .ok h2 ∧
      (h2.send Sample.clientB).buf = [Sample.noCodeFrame] := by
  refine ⟨by decide, ?_⟩
  have hty : Sample.noCodeFrame.Type_ = "cursor_move" ∨
      Sample.noCodeFrame.Type_ = "code_change" ∨
      Sample.noCodeFrame.Type_ = "language_change" := Or.inr (Or.inl rfl)
  obtain ⟨h1, hrun⟩ := readPump_forward_ok Sample.pair Sample.clientA Sample.noCodeFrame hty
    (by decide)
  obtain ⟨-, hredis, hcl, hsend, hq⟩ :=
    readPump_forward_spec Sample.pair h1 Sample.clientA Sample.noCodeFrame hty hrun
  have hB : Sample.clientB ∈ h1.members "S1" := by
    simp only [members, hcl]
    decide
  obtain ⟨h2, hrun2⟩ := deliver_ok h1 ⟨"S1", Sample.noCodeFrame, some Sample.clientA⟩
    (fun x _ _ => by rw [hsend]; rfl)
  obtain ⟨-, -, happ⟩ := (send_deliver h1 h2 _ hrun2 Sample.clientB).2 hB (by decide)
  refine ⟨h1, h2, hrun, ?_, hq, hrun2, ?_⟩
  · rw [hredis]
    exact storeAfterFrame_lacking _ _ _ (Or.inl ⟨rfl, by decide⟩)
  · rw [happ (by rw [hsend]; rfl), hsend]
    rfl

/-- C13, amended: a frame that does not decode, or whose type is none of `cursor_move`,
`code_change`, `language_change` and `ping`, is discarded: the step of the reader
completes and leaves the whole state as it was (no broadcast, no store write, no reply),
and the loop goes on. A `code_change` or `language_change` frame that lacks its string
field causes no store write and no reply, and leaves the registry alone, but the reader
still sends the hub one broadcast command carrying the frame, for its session and
excluding its connection; that step completes when the `broadcast` channel has room. -/
theorem malformed_frames_handling (h : WebSocketHandler) (C : Client) :
    h.readPump C none = .ok h ∧
    (∀ m, m.Type_ ∉ dispatchedTypes → h.readPump C (some m) = .ok h) ∧
    (∀ m, (m.Type_ = "code_change" ∧ stringField m.Data "code" = none) ∨
        (m.Type_ = "language_change" ∧ stringField m.Data "language" = none) →
      (∀ h1, h.readPump C (some m) = .ok h1 →
        h1.redis = h.redis ∧ h1.send = h.send ∧ h1.clients = h.clients ∧
        h1.broadcast = h.broadcast ++ [⟨C.sessionID, marshal m, some C⟩]) ∧
      (h.broadcast.length < broadcastCap → ∃ h1, h.readPump C (some m) = .ok h1)) := by
  refine ⟨readPump_undecodable h C, readPump_unknown h C, fun m hlack => ?_⟩
  have hty : m.Type_ = "cursor_move" ∨ m.Type_ = "code_change" ∨
      m.Type_ = "language_change" := by
    rcases hlack with ⟨hty, -⟩ | ⟨hty, -⟩
    · exact Or.inr (Or.inl hty)
    · exact Or.inr (Or.inr hty)
  refine ⟨fun h1 hrun => ?_, readPump_forward_ok h C m hty⟩
  obtain ⟨-, hredis, hcl, hsend, hq⟩ := readPump_forward_spec h h1 C m hty hrun
  exact ⟨by rw [hredis, storeAfterFrame_lacking h C m hlack], hsend, hcl, hq⟩

/-- C13, amended, on the sample state: a frame that does not decode and a frame of
type `selection` leave the state as it was; the `code_change` frame without a string
code leaves store and queues as they were and appends one command. -/
theorem malformed_frames_handling_witness :
    Sample.pair.readPump Sample.clientA none = .ok Sample.pair ∧
    Sample.pair.readPump Sample.clientA (some Sample.unknownFrame) = .ok Sample.pair ∧
    ∃ h1, Sample.pair.readPump Sample.clientA (some Sample.noCodeFrame) = .ok h1 ∧
      h1.redis = Sample.pair.redis ∧ h1.send = Sample.pair.send ∧
      h1.broadcast = [⟨"S1", Sample.noCodeFrame, some Sample.clientA⟩] := by
  obtain ⟨hnone, hunknown, hlack⟩ := malformed_frames_handling Sample.pair Sample.clientA
  obtain ⟨hpart, htotal⟩ := hlack Sample.noCodeFrame (Or.inl ⟨rfl, by decide⟩)
  obtain ⟨h1, hrun⟩ := htotal (by decide)
  obtain ⟨hredis, hsend, -, hq⟩ := hpart h1 hrun
  exact ⟨hnone, hunknown Sample.unknownFrame (by decide), h1, hrun, hredis, hsend, hq⟩

end WebSocketHandler

namespace WebSocketHandler

/-- C14: in every state reached from the empty hub by a run of register, unregister and
broadcast cases (and steps of readers and writers) in which connections follow their
lifecycle, each fresh and registered at most once, every member of a bucket of the
registry has an open outbound queue. Consequently no case of the hub panics there: an
unregister never closes a closed queue, and when it comes after a backpressure drop it
leaves the queue of its connection as the drop left it; the broadcast case and the
register of a connection that has not registered never send on a closed queue. -/
theorem members_have_open_queues (redis : RedisService) (evs : List Event)
    (h : WebSocketHandler) (hlife : lifecycle [] [] evs = true)
    (hrun : (WebSocketHandler.new redis).exec evs = .ok h) :
    (∀ S b c, h.clients S = some b → c ∈ b.elems → (h.send c).closed = false) ∧
    (∀ c, panicked (h.runUnregister c) = false) ∧
    (∀ c h1, (h.send c).closed = true → h.runUnregister c = .ok h1 → h1.send = h.send) ∧
    panicked h.runBroadcast = false ∧
    (∀ c, c ∉ registered evs → panicked (h.runRegister c) = false) := by
  obtain ⟨reg1, gone1, ⟨-, hmem, hfresh⟩, hr, -⟩ :=
    healthy_exec evs [] [] _ h hlife (healthy_new redis) hrun
  refine ⟨fun S b c hb hc => ?_, fun c => ?_, fun c h1 hclosed hstep => ?_, ?_, fun c hc => ?_⟩
  · exact (hmem S c (by rw [members_of_some h S b hb]; exact hc)).2
  · exact runUnregister_no_panic h c (fun hm => (hmem _ c hm).2)
  · refine send_runUnregister_absent h h1 c hstep (fun hm => ?_)
    rw [(hmem _ c hm).2] at hclosed
    cases hclosed
  · exact runBroadcast_no_panic h (fun S x hx => (hmem S x hx).2)
  · refine runRegister_no_panic h c (hfresh c (fun hm => ?_))
    rcases (hr c).mp hm with hm | hm
    · cases hm
    · exact hc hm

/-- C14 on the run `Sample.dropRun`: after the hub has dropped `clientA` for a full
queue, the queue of `clientA` is closed, `clientA` is in no bucket, and the unregister
of `clientA` completes without closing the queue again. -/
theorem members_have_open_queues_witness :
    ∃ h h1, (WebSocketHandler.new Sample.emptyStore).exec Sample.dropRun = .ok h ∧
      (h.send Sample.clientA).closed = true ∧
      (∀ S b, h.clients S = some b → Sample.clientA ∉ b.elems) ∧
      h.runUnregister Sample.clientA = .ok h1 ∧ h1.send = h.send := by
  obtain ⟨h, hrun, hcheck⟩ := ok_of_check
    ((WebSocketHandler.new Sample.emptyStore).exec Sample.dropRun)
    (fun g => (g.send Sample.clientA).closed && (g.runUnregister Sample.clientA).toBool)
    (by decide)
  simp only [Bool.and_eq_true] at hcheck
  obtain ⟨hclosed, hok⟩ := hcheck
  obtain ⟨h1, hstep⟩ := exists_ok_of_toBool _ hok
  obtain ⟨hopen, -, hsame, -, -⟩ :=
    members_have_open_queues Sample.emptyStore Sample.dropRun h (by decide) hrun
  refine ⟨h, h1, hrun, hclosed, fun S b hb hc => ?_, hstep, hsame _ h1 hclosed hstep⟩
  rw [hopen S b _ hb hc] at hclosed
  cases hclosed

end WebSocketHandler

namespace WebSocketHandler

/-- C15, evaluated on the run `Sample.pingAfterDrop`: the run respects the lifecycle of
connections; after `Sample.dropRun` the hub has closed the queue of `clientA` by the
backpressure drop of a broadcast while `clientA` has not unregistered, so its reader is
still running; the reader then handles one more ping and performs the reply send on the
closed queue, which is a panic of the whole process. -/
theorem reader_sends_pong_on_closed_queue :
    lifecycle [] [] Sample.pingAfterDrop = true ∧
    Sample.clientA ∉ unregistered Sample.dropRun ∧
    ∃ h, (WebSocketHandler.new Sample.emptyStore).exec Sample.dropRun = .ok h ∧
      (h.send Sample.clientA).closed = true ∧
      h.readPump Sample.clientA (some Sample.pingFrame) = .error .sendOnClosed ∧
      (WebSocketHandler.new Sample.emptyStore).exec Sample.pingAfterDrop =
        .error .sendOnClosed := by
  refine ⟨by decide, by decide, ?_⟩
  obtain ⟨h, hrun, hclosed⟩ := ok_of_check
    ((WebSocketHandler.new Sample.emptyStore).exec Sample.dropRun)
    (fun g => (g.send Sample.clientA).closed) (by decide)
  have hpanic : h.readPump Sample.clientA (some Sample.pingFrame) = .error .sendOnClosed := by
    rw [readPump_ping h Sample.clientA Sample.pingFrame rfl]
    simp [Chan.sendBlocking, hclosed]
  refine ⟨h, hrun, hclosed, hpanic, ?_⟩
  have hfault : (match (WebSocketHandler.new Sample.emptyStore).exec Sample.pingAfterDrop with
      | .ok _ => false
      | .error f => decide (f = .sendOnClosed)) = true := by decide
  cases hres : (WebSocketHandler.new Sample.emptyStore).exec Sample.pingAfterDrop with
  | ok g => simp [hres] at hfault
  | error f =>
    simp only [hres, decide_eq_true_eq] at hfault
    rw [hfault]

/-- C16: let the reader of `C` handle a frame `m` of type `cursor_move`, `code_change` or
`language_change`. The command it sends the hub is for the session id of `C` and
excludes `C`, whatever `session_id` the frame carries; its store write changes no session
but the one saved under the session id of `C` (the store keeping that session under its
own id); serving the command touches the store not at all, no bucket but the one of the
session of `C`, and no queue outside that bucket. A frame that differs from `m` only in
its `session_id` field leaves the same store, registry and queues behind the reader,
yields a command for the same session with the same exclusion, and once served has
changed the same queues and left the same members in every bucket. The reader completes
its step when the `broadcast` channel has room. -/
theorem frame_stays_in_own_session (h : WebSocketHandler) (C : Client) (m : WSMessage)
    (hty : m.Type_ = "cursor_move" ∨ m.Type_ = "code_change" ∨ m.Type_ = "language_change") :
    (∀ h1, h.readPump C (some m) = .ok h1 →
      h1.broadcast = h.broadcast ++ [⟨C.sessionID, marshal m, some C⟩] ∧
      ((∀ s, h.redis.GetSession C.sessionID = some s → s.ID = C.sessionID) →
        ∀ k, k ≠ C.sessionID → h1.redis.GetSession k = h.redis.GetSession k) ∧
      (∀ h2, h1.deliver ⟨C.sessionID, marshal m, some C⟩ = .ok h2 →
        h2.redis = h1.redis ∧
        (∀ k, k ≠ C.sessionID → h2.clients k = h.clients k) ∧
        (∀ x, x ∉ h.members C.sessionID → h2.send x = h.send x)) ∧
      (∀ sid, ∃ h1s, h.readPump C (some { m with SessionID := sid }) = .ok h1s ∧
        h1s.redis = h1.redis ∧ h1s.clients = h1.clients ∧ h1s.send = h1.send ∧
        h1s.broadcast = h.broadcast ++
          [⟨C.sessionID, marshal { m with SessionID := sid }, some C⟩] ∧
        ∀ h2 h2s, h1.deliver ⟨C.sessionID, marshal m, some C⟩ = .ok h2 →
          h1s.deliver ⟨C.sessionID, marshal { m with SessionID := sid }, some C⟩ = .ok h2s →
          h2s.redis = h2.redis ∧
          (∀ k x, x ∈ h2s.members k ↔ x ∈ h2.members k) ∧
          (∀ x, h2s.send x = h.send x ↔ h2.send x = h.send x))) ∧
    (h.broadcast.length < broadcastCap → ∃ h1, h.readPump C (some m) = .ok h1) := by
  refine ⟨fun h1 hrun => ?_, readPump_forward_ok h C m hty⟩
  obtain ⟨hlen, hredis, hcl, hsend, hq⟩ := readPump_forward_spec h h1 C m hty hrun
  have hmem : ∀ k, h1.members k = h.members k := fun k => by simp only [members, hcl]
  refine ⟨hq, fun hkey k hk => ?_, fun h2 hrun2 => ⟨redis_deliver h1 h2 _ hrun2,
    fun k hk => ?_, fun x hx => ?_⟩, fun sid => ?_⟩
  · rw [hredis]
    exact storeAfterFrame_other h C m hkey k hk
  · rw [clients_deliver_other h1 h2 _ hrun2 k hk, hcl]
  · rw [(send_deliver h1 h2 _ hrun2 x).1 (Or.inl (by rw [hmem]; exact hx)), hsend]
  · have htys : ({ m with SessionID := sid } : WSMessage).Type_ = "cursor_move" ∨
        ({ m with SessionID := sid } : WSMessage).Type_ = "code_change" ∨
        ({ m with SessionID := sid } : WSMessage).Type_ = "language_change" := hty
    obtain ⟨h1s, hruns⟩ := readPump_forward_ok h C { m with SessionID := sid } htys hlen
    obtain ⟨-, hrediss, hcls, hsends, hqs⟩ :=
      readPump_forward_spec h h1s C { m with SessionID := sid } htys hruns
    refine ⟨h1s, hruns, ?_, by rw [hcls, hcl], by rw [hsends, hsend], hqs, ?_⟩
    · rw [hrediss, hredis, storeAfterFrame_sessionID]
    · intro h2 h2s hrun2 hrun2s
      have hmems : ∀ k, h1s.members k = h.members k := fun k => by simp only [members, hcls]
      refine ⟨?_, fun k x => ?_, fun x => ?_⟩
      · rw [redis_deliver h1s h2s _ hrun2s, redis_deliver h1 h2 _ hrun2, hrediss, hredis,
          storeAfterFrame_sessionID]
      · by_cases hk : k = C.sessionID
        · subst hk
          rw [members_deliver h1s h2s _ hrun2s x, members_deliver h1 h2 _ hrun2 x,
            hmems, hmem, hsends, hsend]
        · have e1 := clients_deliver_other h1s h2s _ hrun2s k hk
          have e2 := clients_deliver_other h1 h2 _ hrun2 k hk
          simp only [members, e1, e2, hcls, hcl]
      · have e1 := send_deliver_changed h1s h2s _ hrun2s x
        have e2 := send_deliver_changed h1 h2 _ hrun2 x
        rw [hsends, hmems] at e1
        rw [hsend, hmem] at e2
        rw [e1, e2]

/-- C16 on the sample state: `clientA`, on `S1`, sends a `code_change` frame whose
`session_id` field names `S2`; the command is for `S1`, the session stored under `S1` is
the one written, and the forged frame and the honest one leave the same store behind. -/
theorem frame_stays_in_own_session_witness :
    ∃ h1 h1s, Sample.pair.readPump Sample.clientA (some Sample.forgedFrame) = .ok h1 ∧
      h1.broadcast = [⟨"S1", Sample.forgedFrame, some Sample.clientA⟩] ∧
      (∀ k, k ≠ "S1" → h1.redis.GetSession k = Sample.pair.redis.GetSession k) ∧
      Sample.pair.readPump Sample.clientA (some Sample.codeFrame) = .ok h1s ∧
      h1s.redis = h1.redis ∧ h1s.send = h1.send := by
  have hthm := frame_stays_in_own_session Sample.pair Sample.clientA Sample.forgedFrame
    (Or.inr (Or.inl rfl))
  obtain ⟨h1, hrun⟩ := hthm.2 (by decide)
  obtain ⟨hq, hstore, -, hfield⟩ := hthm.1 h1 hrun
  obtain ⟨h1s, hruns, hrediss, -, hsends, -⟩ := hfield "S1"
  refine ⟨h1, h1s, hrun, hq, hstore ?_, hruns, hrediss, hsends⟩
  intro s hs
  have hs1 : Sample.storedS1 = s := by
    simpa [Sample.pair, Sample.storeS1, RedisService.GetSession, Sample.clientA] using hs
  rw [← hs1]
  rfl

end WebSocketHandler

end Codestream
